import Mathlib

/-!
Verification development for the screenshot-indexer core
(`src/src-tauri/src/lib.rs`).

Modelling conventions, used throughout:
* Rust `String` / `&str` values are modelled as `List Char`; `len()` is
  modelled as the character count (the two coincide on ASCII data, and
  every concrete input below is ASCII except where noted).
* The character classes of the `regex` crate (`\d`, `\w`, `\s`) and of
  `char` methods (`is_alphanumeric`, `is_uppercase`, …) are modelled by
  their ASCII restrictions.
* Regexes are modelled by a small backtracking engine (`RE`, `matchRe`)
  with the leftmost-first, greedy-with-backtracking semantics of the
  `regex` crate; every `star` is over a character class, which the
  source's patterns satisfy, so the engine is structurally terminating.
-/

namespace Chronicle

/-- ASCII decimal digit, the model of regex `\d`. -/
def isDigitCh (c : Char) : Bool := ('0' ≤ c) && (c ≤ '9')

/-- ASCII lowercase letter. -/
def isLowerCh (c : Char) : Bool := ('a' ≤ c) && (c ≤ 'z')

/-- ASCII uppercase letter. -/
def isUpperCh (c : Char) : Bool := ('A' ≤ c) && (c ≤ 'Z')

/-- ASCII letter, the model of `char::is_alphabetic`. -/
def isAlphaCh (c : Char) : Bool := isLowerCh c || isUpperCh c

/-- ASCII alphanumeric, the model of `char::is_alphanumeric` and of
regex `[0-9A-Za-z]` classes. -/
def isAlnumCh (c : Char) : Bool := isAlphaCh c || isDigitCh c

/-- Whitespace, the model of `char::is_whitespace` and regex `\s`. -/
def isWsCh (c : Char) : Bool :=
  (c = ' ') || (c = '\t') || (c = '\n') || (c = '\r')

/-- Regex word character `\w` (ASCII model). -/
def isWordCh (c : Char) : Bool := isAlnumCh c || (c = '_')

/-- Model of `char::to_ascii_lowercase` (and, on ASCII data, of
`str::to_lowercase`). -/
def toLowerCh (c : Char) : Char :=
  if isUpperCh c then Char.ofNat (c.toNat + 32) else c

/-- Lowercase a whole string, the model of `str::to_lowercase`. -/
def toLowerL (l : List Char) : List Char := l.map toLowerCh

/-- Does `pre` occur at the start of `l`?  (model of `starts_with` on
strings; written out to keep the development self-contained). -/
def startsWithL : List Char → List Char → Bool
  | [], _ => true
  | _ :: _, [] => false
  | p :: ps, c :: cs => (p = c) && startsWithL ps cs

/-- Substring containment, the model of `str::contains(&str)`. -/
def containsL : List Char → List Char → Bool
  | l, n =>
    match l with
    | [] => n.isEmpty
    | _ :: rest => startsWithL n l || containsL rest n

/-- Number of occurrences of character `c`, the model of
`str::matches(c).count()`. -/
def countCharIn (l : List Char) (c : Char) : Nat :=
  l.countP (fun d => d = c)

/-- Fueled worker for `countSubL`; every recursive call shortens the
list, so fuel `length + 1` always suffices. -/
def countSubAux : Nat → List Char → List Char → Nat
  | 0, _, _ => 0
  | fuel + 1, l, n =>
    match l with
    | [] => 0
    | c :: rest =>
      if startsWithL n (c :: rest) && !n.isEmpty then
        1 + countSubAux fuel ((c :: rest).drop n.length) n
      else
        countSubAux fuel rest n

/-- Number of non-overlapping occurrences of a (nonempty) literal
substring, scanning left to right: the model of
`str::matches(needle).count()`. -/
def countSubL (l n : List Char) : Nat := countSubAux (l.length + 1) l n

/-- Number of pieces produced by `str::split(needle)` (= occurrence
count + 1 for a nonempty needle). -/
def splitPieceCount (l n : List Char) : Nat := countSubL l n + 1

/-- Fueled worker for `replaceLit`. -/
def replaceLitAux : Nat → List Char → List Char → List Char → List Char
  | 0, l, _, _ => l
  | fuel + 1, l, from_, to_ =>
    match l with
    | [] => []
    | c :: rest =>
      if startsWithL from_ (c :: rest) && !from_.isEmpty then
        to_ ++ replaceLitAux fuel ((c :: rest).drop from_.length) from_ to_
      else
        c :: replaceLitAux fuel rest from_ to_

/-- `str::replace(from, to)`: replace every non-overlapping occurrence,
left to right, of the nonempty literal `from`. -/
def replaceLit (l from_ to_ : List Char) : List Char :=
  replaceLitAux (l.length + 1) l from_ to_

/-- Trim leading and trailing whitespace, the model of `str::trim`. -/
def trimL (l : List Char) : List Char :=
  ((l.dropWhile isWsCh).reverse.dropWhile isWsCh).reverse

/-- Accumulator worker for `splitWs`: `acc` holds the characters of the
token currently being read, in reverse. -/
def splitWsAux : List Char → List Char → List (List Char)
  | [], acc => if acc = [] then [] else [acc.reverse]
  | c :: rest, acc =>
    if isWsCh c then
      if acc = [] then splitWsAux rest []
      else acc.reverse :: splitWsAux rest []
    else
      splitWsAux rest (c :: acc)

/-- Split on whitespace dropping empty pieces, the model of
`str::split_whitespace`. -/
def splitWs (l : List Char) : List (List Char) := splitWsAux l []

/-- Split on a separator character (pieces may be empty); used to model
`str::lines` below. -/
def splitOnCh : List Char → Char → List (List Char)
  | [], _ => [[]]
  | c :: rest, sep =>
    if c = sep then
      [] :: splitOnCh rest sep
    else
      match splitOnCh rest sep with
      | [] => [[c]]
      | p :: ps => (c :: p) :: ps

/-- The model of `str::lines`: split on `'\n'`, strip one trailing
`'\r'` from each piece, and drop the final empty piece produced by a
trailing newline. -/
def linesOf (l : List Char) : List (List Char) :=
  let raw := splitOnCh l '\n'
  let raw := if raw.getLast? = some [] ∧ l ≠ [] then raw.dropLast else raw
  raw.map (fun p => if p.getLast? = some '\r' then p.dropLast else p)

/-- Join with single spaces, the model of `Vec::join(" ")`. -/
def joinSpace : List (List Char) → List Char
  | [] => []
  | [w] => w
  | w :: ws => w ++ ' ' :: joinSpace ws

/-- Does `u32::from_str` succeed on this token?  (`word.parse::<u32>()`
accepts an optional leading `+`, then one or more ASCII digits, and the
value must fit in 32 bits.) -/
def parsesAsU32 (w : List Char) : Bool :=
  let digits := match w with
    | '+' :: rest => rest
    | _ => w
  (!digits.isEmpty) && digits.all isDigitCh &&
    (digits.foldl (fun acc c => acc * 10 + (c.toNat - '0'.toNat)) 0 < 4294967296)

/-! ### A small backtracking regex engine

Mirrors the semantics of the `regex` crate on the fragment the source
uses: leftmost-first search, preference-ordered alternation (`alt` tries
the left branch first), greedy repetition with backtracking.  Every
repetition in the source's patterns is over a single character class,
so `starCl` takes a class and the engine is structurally recursive. -/

/-- Regular expressions over the fragment used by the source. -/
inductive RE where
  | eps : RE
  | cls : (Char → Bool) → RE
  | lit : List Char → RE
  | seq : RE → RE → RE
  | alt : RE → RE → RE
  | opt : RE → RE
  | starCl : (Char → Bool) → RE
  | wb : RE

/-- Is the optional character a regex word character (`\w`)?  `none`
(string edge) counts as non-word. -/
def wordAt : Option Char → Bool
  | some d => isWordCh d
  | none => false

/-- Word-boundary test between the previous character and the next. -/
def boundaryAt (prev next : Option Char) : Bool := wordAt prev != wordAt next

/-- All ways `r` can match a prefix of `s`, in the engine's preference
order.  Each result is `(consumed, last consumed char, rest)`; the
previous character `prev` is threaded through for `\b`. -/
def matchRe : RE → Option Char → List Char → List (List Char × Option Char × List Char)
  | .eps, prev, s => [([], prev, s)]
  | .cls p, _, s =>
    match s with
    | [] => []
    | c :: rest => if p c then [([c], some c, rest)] else []
  | .lit l, prev, s =>
    if startsWithL l s then
      [(l, (if l.isEmpty then prev else l.getLast?), s.drop l.length)]
    else []
  | .seq a b, prev, s =>
    (matchRe a prev s).flatMap (fun x =>
      (matchRe b x.2.1 x.2.2).map (fun y => (x.1 ++ y.1, y.2.1, y.2.2)))
  | .alt a b, prev, s => matchRe a prev s ++ matchRe b prev s
  | .opt a, prev, s => matchRe a prev s ++ [([], prev, s)]
  | .starCl p, prev, s =>
    let run := s.takeWhile p
    (List.range (run.length + 1)).reverse.map (fun k =>
      (run.take k, (if k = 0 then prev else (run.take k).getLast?), s.drop k))
  | .wb, prev, s => if boundaryAt prev s.head? then [([], prev, s)] else []

/-- Does `r` match starting at some position of `s`?  (`Regex::is_match`:
scan positions left to right.) -/
def reIsMatchAux (r : RE) : Option Char → List Char → Bool
  | prev, [] => !(matchRe r prev []).isEmpty
  | prev, c :: rest =>
    !(matchRe r prev (c :: rest)).isEmpty || reIsMatchAux r (some c) rest

/-- `Regex::is_match` on a whole string. -/
def reIsMatch (r : RE) (s : List Char) : Bool := reIsMatchAux r none s

/-- Worker for `find_iter`: scan left to right, taking the first
(preferred) match at the earliest position, then resuming after it.
`fuel` bounds the recursion; `length + 1` always suffices because each
step either consumes a nonempty match or advances one character. -/
def findAllAux (r : RE) : Nat → Option Char → List Char → List (List Char)
  | 0, _, _ => []
  | fuel + 1, prev, s =>
    match s, (matchRe r prev s).head? with
    | [], none => []
    | [], some x =>
      if x.1.isEmpty then [] else x.1 :: findAllAux r fuel x.2.1 x.2.2
    | c :: rest, none => findAllAux r fuel (some c) rest
    | c :: rest, some x =>
      if x.1.isEmpty then findAllAux r fuel (some c) rest
      else x.1 :: findAllAux r fuel x.2.1 x.2.2

/-- `Regex::find_iter`: the list of non-overlapping matches. -/
def findAllRe (r : RE) (s : List Char) : List (List Char) :=
  findAllAux r (s.length + 1) none s

/-- `Regex::find_iter(..).count()`. -/
def countMatchesRe (r : RE) (s : List Char) : Nat := (findAllRe r s).length

/-- Worker for `replace_all` with a constant replacement string. -/
def replaceAllAux (r : RE) (repl : List Char) : Nat → Option Char → List Char → List Char
  | 0, _, s => s
  | fuel + 1, prev, s =>
    match (matchRe r prev s).head? with
    | some (consumed, prev2, rem) =>
      if consumed.isEmpty then
        match s with
        | [] => []
        | c :: rest => c :: replaceAllAux r repl fuel (some c) rest
      else repl ++ replaceAllAux r repl fuel prev2 rem
    | none =>
      match s with
      | [] => []
      | c :: rest => c :: replaceAllAux r repl fuel (some c) rest

/-- `Regex::replace_all(text, repl)` for a constant replacement. -/
def replaceAllRe (r : RE) (repl : List Char) (s : List Char) : List Char :=
  replaceAllAux r repl (s.length + 1) none s

/-- Match `r` at line starts only: the model of a `(?m)^…` pattern
(`is_match` over positions that begin the string or follow `'\n'`). -/
def mlIsMatchAux (r : RE) : Option Char → List Char → Bool
  | prev, [] =>
    (decide (prev = none) || decide (prev = some '\n')) &&
      !(matchRe r prev []).isEmpty
  | prev, c :: rest =>
    ((decide (prev = none) || decide (prev = some '\n')) &&
      !(matchRe r prev (c :: rest)).isEmpty) || mlIsMatchAux r (some c) rest

/-- `(?m)` multi-line `is_match` for a `^`-anchored pattern body. -/
def mlIsMatch (r : RE) (s : List Char) : Bool := mlIsMatchAux r none s

/-- Sequence a list of regexes. -/
def seqRE (l : List RE) : RE := l.foldr RE.seq RE.eps

/-- Alternation over a nonempty list, preferring earlier entries
(leftmost-first, as the `regex` crate does). -/
def altRE : List RE → RE
  | [] => RE.cls (fun _ => false)
  | [r] => r
  | r :: rest => RE.alt r (altRE rest)

/-- Case-sensitive literal. -/
def litS (s : String) : RE := RE.lit s.toList

/-- Case-insensitive literal, the model of a literal under `(?i)`
(ASCII folding). -/
def litCI (s : String) : RE :=
  seqRE (s.toList.map (fun c => RE.cls (fun d => toLowerCh d = toLowerCh c)))

/-! ### The source's regex patterns, transcribed one by one -/

/-- `\d` -/
def dRE : RE := RE.cls isDigitCh

/-- `\d{1,2}` (greedy: prefers two digits) -/
def d12RE : RE := RE.seq dRE (RE.opt dRE)

/-- `\s+` -/
def wsPlusRE : RE := RE.seq (RE.cls isWsCh) (RE.starCl isWsCh)

/-- `(?:AM|PM|am|pm)` -/
def ampmRE : RE := altRE [litS "AM", litS "PM", litS "am", litS "pm"]

/-- `\d{1,2}:\d{2}\s*(?:AM|PM|am|pm)` (`time_pattern_12h`) -/
def time12RE : RE :=
  seqRE [d12RE, litS ":", dRE, dRE, RE.starCl isWsCh, ampmRE]

/-- `\b\d{1,2}:\d{2}\b` (`time_pattern_24h`) -/
def time24RE : RE :=
  seqRE [RE.wb, d12RE, litS ":", dRE, dRE, RE.wb]

/-- `\d{1,2}:\d{2}` (`line_with_time`) -/
def lineTimeRE : RE := seqRE [d12RE, litS ":", dRE, dRE]

/-- `^[A-Z][a-z]+:` — the first, start-anchored alternative of
`name_pattern`. -/
def nameStartRE : RE :=
  seqRE [RE.cls isUpperCh, RE.cls isLowerCh, RE.starCl isLowerCh, litS ":"]

/-- `\b(You|Me|I):` — the second alternative of `name_pattern`. -/
def nameWordRE : RE :=
  seqRE [RE.wb, altRE [litS "You", litS "Me", litS "I"], litS ":"]

/-- `name_pattern.is_match(line)` where `name_pattern` is
`^[A-Z][a-z]+:|\b(You|Me|I):` — the first alternative is anchored to
the start of the line, the second may occur anywhere. -/
def namePatMatch (line : List Char) : Bool :=
  !(matchRe nameStartRE none line).isEmpty || reIsMatch nameWordRE line

/-- ASCII hex digit (`[0-9A-Fa-f]`). -/
def isHexCh (c : Char) : Bool :=
  isDigitCh c || (('a' ≤ c) && (c ≤ 'f')) || (('A' ≤ c) && (c ≤ 'F'))

/-- `#[0-9A-Fa-f]{6}` (`hex_pattern`) -/
def hexRE : RE :=
  seqRE [litS "#", RE.cls isHexCh, RE.cls isHexCh, RE.cls isHexCh,
    RE.cls isHexCh, RE.cls isHexCh, RE.cls isHexCh]

/-- `\$\d+\.\d{2}` (`price_pattern`) -/
def priceRE : RE :=
  seqRE [litS "$", dRE, RE.starCl isDigitCh, litS ".", dRE, dRE]

/-- `\d{1,2}/\d{1,2}/\d{2,4}` (`date_pattern`) -/
def dateRE : RE :=
  seqRE [d12RE, litS "/", d12RE, litS "/", dRE, dRE,
    RE.opt (RE.seq dRE (RE.opt dRE))]

/-- `[^\s]` -/
def nonWsCls (c : Char) : Bool := !isWsCh c

/-- `https?://[^\s]+` (`url_pattern`) -/
def urlRE : RE :=
  seqRE [litS "http", RE.opt (litS "s"), litS "://",
    RE.cls nonWsCls, RE.starCl nonWsCls]

/-- `[a-z0-9-]` -/
def domCls (c : Char) : Bool := isLowerCh c || isDigitCh c || (c = '-')

/-- `\b[a-z0-9-]+\.[a-z]{2,}\b` (`domain_pattern`) -/
def domainRE : RE :=
  seqRE [RE.wb, RE.cls domCls, RE.starCl domCls, litS ".",
    RE.cls isLowerCh, RE.cls isLowerCh, RE.starCl isLowerCh, RE.wb]

/-- Body of `(?m)^\d+\.\s` (`numbered_list_pattern`); the `^` anchor is
handled by `mlIsMatch`. -/
def numberedListRE : RE :=
  seqRE [dRE, RE.starCl isDigitCh, litS ".", RE.cls isWsCh]

/-- `[smhd]` -/
def smhdCls (c : Char) : Bool := (c = 's') || (c = 'm') || (c = 'h') || (c = 'd')

/-- `\b\d{1,2}:\d{2}(?:\s*(?:AM|PM|am|pm))?\b` (cleaner `timestamp_pattern`) -/
def timestampRE : RE :=
  seqRE [RE.wb, d12RE, litS ":", dRE, dRE,
    RE.opt (RE.seq (RE.starCl isWsCh) ampmRE), RE.wb]

/-- `(Jan|Feb|Mar|Apr|May|Jun|Jul|Aug|Sep|Oct|Nov|Dec)` -/
def monthRE : RE :=
  altRE [litS "Jan", litS "Feb", litS "Mar", litS "Apr", litS "May",
    litS "Jun", litS "Jul", litS "Aug", litS "Sep", litS "Oct",
    litS "Nov", litS "Dec"]

/-- Cleaner `date_time_pattern`:
`\b(Jan|…|Dec)\s+\d{1,2}(?:\s+at\s+)?\d{1,2}:\d{2}(:\d{2})?(?:\s*(?:AM|PM|am|pm))?\b` -/
def dateTimeRE : RE :=
  seqRE [RE.wb, monthRE, wsPlusRE, d12RE,
    RE.opt (seqRE [wsPlusRE, litS "at", wsPlusRE]),
    d12RE, litS ":", dRE, dRE,
    RE.opt (seqRE [litS ":", dRE, dRE]),
    RE.opt (RE.seq (RE.starCl isWsCh) ampmRE), RE.wb]

/-- Cleaner `relative_time_pattern`:
`\b(Just now|Today|Yesterday|This Week|This Month|moments? ago|\d+[smhd]\s+ago)\b` -/
def relTimeRE : RE :=
  seqRE [RE.wb,
    altRE [litS "Just now", litS "Today", litS "Yesterday",
      litS "This Week", litS "This Month",
      seqRE [litS "moment", RE.opt (litS "s"), litS " ago"],
      seqRE [dRE, RE.starCl isDigitCh, RE.cls smhdCls, wsPlusRE, litS "ago"]],
    RE.wb]

/-- Cleaner `ui_pattern`:
`(?i)\b(Select all|Clear|Delete|Next|Prev|indexed|selected|RESULTS|result|of|Last:|Chronicle)\b` -/
def uiRE : RE :=
  seqRE [RE.wb,
    altRE [litCI "Select all", litCI "Clear", litCI "Delete", litCI "Next",
      litCI "Prev", litCI "indexed", litCI "selected", litCI "RESULTS",
      litCI "result", litCI "of", litCI "Last:", litCI "Chronicle"],
    RE.wb]

/-- Cleaner `status_pattern`:
`(?i)\b(Read|Delivered|Sending|Sent|✓|✔|✗|×|checkmark|read receipt)\b` -/
def statusRE : RE :=
  seqRE [RE.wb,
    altRE [litCI "Read", litCI "Delivered", litCI "Sending", litCI "Sent",
      litCI "✓", litCI "✔", litCI "✗", litCI "×", litCI "checkmark",
      litCI "read receipt"],
    RE.wb]

/-- Cleaner `messaging_ui` pattern:
`(?i)\b(Search|Type a message|Send|Reply|Forward|Copy|Share|More|Options|Menu|Settings|Profile|Channel|DM|Direct Message|Group|Thread)\b` -/
def messagingUiRE : RE :=
  seqRE [RE.wb,
    altRE [litCI "Search", litCI "Type a message", litCI "Send",
      litCI "Reply", litCI "Forward", litCI "Copy", litCI "Share",
      litCI "More", litCI "Options", litCI "Menu", litCI "Settings",
      litCI "Profile", litCI "Channel", litCI "DM", litCI "Direct Message",
      litCI "Group", litCI "Thread"],
    RE.wb]

/-- Cleaner `short_time` pattern: `\b\d{1,2}[smhd]\b` -/
def shortTimeRE : RE :=
  seqRE [RE.wb, d12RE, RE.cls smhdCls, RE.wb]

/-- Cleaner `newline_pattern`: `\n\s*\n+` -/
def newlineRE : RE :=
  seqRE [litS "\n", RE.starCl isWsCh, litS "\n", RE.starCl (fun c => c = '\n')]

/-- Cleaner `space_pattern`: `\s+` -/
def spaceRE : RE := wsPlusRE

/-- `[^\w\s]` -/
def punctCls (c : Char) : Bool := !isWordCh c && !isWsCh c

/-- Cleaner `isolated_punct` pattern: `\s+[^\w\s]{3,}\s+` -/
def isolatedPunctRE : RE :=
  seqRE [wsPlusRE, RE.cls punctCls, RE.cls punctCls, RE.cls punctCls,
    RE.starCl punctCls, wsPlusRE]

/-! ### `fix_ocr_character_mistakes` -/

/-- `replace_all` for `i_to_l_pattern` = `\bI([a-z]{2,})\b` with
replacement `l$1`.  At each candidate `I` only the maximal lowercase
run can satisfy the trailing `\b` (a shorter run is followed by a
lowercase — word — character), so a single greedy scan implements the
regex exactly. -/
def iToLAux : Nat → Option Char → List Char → List Char
  | 0, _, l => l
  | fuel + 1, prev, l =>
    match l with
    | [] => []
    | c :: rest =>
      if c = 'I' && !wordAt prev then
        let run := rest.takeWhile isLowerCh
        if decide (2 ≤ run.length) && !wordAt (rest.drop run.length).head? then
          'l' :: run ++ iToLAux fuel (run.getLast?) (rest.drop run.length)
        else
          c :: iToLAux fuel (some c) rest
      else
        c :: iToLAux fuel (some c) rest

/-- `replace_all` for `zero_in_word` = `([a-zA-Z])0+([a-zA-Z])` with
replacement `$1o$2`; scanning resumes after the trailing letter of a
match.  The greedy `0+` must take the whole run of zeros (a shorter
run is followed by `0`, which the trailing `[a-zA-Z]` rejects). -/
def zeroInWordAux : Nat → List Char → List Char
  | 0, l => l
  | fuel + 1, l =>
    match l with
    | [] => []
    | a :: rest =>
      if isAlphaCh a then
        let zeros := rest.takeWhile (fun c => c = '0')
        if !zeros.isEmpty then
          match rest.drop zeros.length with
          | b :: rest2 =>
            if isAlphaCh b then a :: 'o' :: b :: zeroInWordAux fuel rest2
            else a :: zeroInWordAux fuel rest
          | [] => a :: zeroInWordAux fuel rest
        else a :: zeroInWordAux fuel rest
      else a :: zeroInWordAux fuel rest

/-- `replace_all` for `([a-zA-Z])<d>([a-zA-Z])` with replacement
`$1<r>$2` (used for `5 → s` and `1 → l`); scanning resumes after the
trailing letter of a match. -/
def digitMidAux (d r : Char) : List Char → List Char
  | a :: b :: c :: rest =>
    if isAlphaCh a && b = d && isAlphaCh c then
      a :: r :: c :: digitMidAux d r rest
    else
      a :: digitMidAux d r (b :: c :: rest)
  | l => l

/-- `fix_ocr_character_mistakes` (source lines 330–399): literal
`String::replace` chain, then the `I…`-to-`l…` regex, a second `Iol`
replace block, and the in-word digit fixes. -/
def fixOcrCharacterMistakes (text : List Char) : List Char :=
  if text.isEmpty then []
  else
    let f := replaceLit text ("Imfaooo0o".toList) ("lmfao".toList)
    let f := replaceLit f ("Imfaoooo".toList) ("lmfao".toList)
    let f := replaceLit f ("Imfaooo".toList) ("lmfao".toList)
    let f := replaceLit f ("Imfaoo".toList) ("lmfao".toList)
    let f := replaceLit f ("Imfao".toList) ("lmfao".toList)
    let f := replaceLit f ("Imfa".toList) ("lmfa".toList)
    let f := replaceLit f ("Imaoooo".toList) ("lmao".toList)
    let f := replaceLit f ("Imaooo".toList) ("lmao".toList)
    let f := replaceLit f ("Imaoo".toList) ("lmao".toList)
    let f := replaceLit f ("Imao".toList) ("lmao".toList)
    let f := replaceLit f ("imao".toList) ("lmao".toList)
    let f := replaceLit f ("iMAO".toList) ("lmao".toList)
    let f := replaceLit f ("ImAO".toList) ("lmao".toList)
    let f := replaceLit f ("IOl".toList) ("Lol".toList)
    let f := replaceLit f ("IOI".toList) ("Lol".toList)
    let f := replaceLit f ("ioI".toList) ("Lol".toList)
    let f := replaceLit f ("Iol".toList) ("Lol".toList)
    let f := iToLAux (f.length + 1) none f
    let f := replaceLit f ("Iol".toList) ("Lol".toList)
    let f := replaceLit f ("ioI".toList) ("Lol".toList)
    let f := replaceLit f ("IOI".toList) ("Lol".toList)
    let f := replaceLit f ("IOl".toList) ("Lol".toList)
    let f := zeroInWordAux (f.length + 1) f
    let f := digitMidAux '5' 's' f
    let f := digitMidAux '1' 'l' f
    f

/-! ### `clean_ocr_text` -/

/-- Model of `(n as f64 * 0.3) as usize`.  For every length arising
here the `f64` product `n * 0.3` rounds to a value in
`[3n/10 − ½ulp, 3n/10]`; truncation toward zero therefore yields
`⌊3n/10⌋` (when `10 ∣ n` the product rounds to exactly `3n/10`, since
the error `n·2⁻⁵⁴·0.2` is below half an ulp of `3n/10`). -/
def thresh30 (n : Nat) : Nat := 3 * n / 10

/-- Count of "real words" (length ≥ 3 with ≥ 2 alphabetic characters),
as in the cleaner's second safety check. -/
def realWordCount (l : List Char) : Nat :=
  (splitWs l).countP
    (fun w => decide (3 ≤ w.length) && decide (2 ≤ w.countP (fun c => isAlphaCh c)))

/-- The substitution passes of `clean_ocr_text` (source lines 762–831):
everything between the character fixes and the safety checks. -/
def cleanPasses (text : List Char) : List Char :=
  let c := replaceAllRe timestampRE (" ".toList) text
  let c := replaceAllRe dateTimeRE [] c
  let c := replaceAllRe relTimeRE [] c
  let c := replaceAllRe uiRE [] c
  let c := replaceAllRe statusRE [] c
  let c := replaceAllRe messagingUiRE [] c
  let c := replaceAllRe shortTimeRE [] c
  let c := replaceAllRe newlineRE (" ".toList) c
  let c := replaceAllRe spaceRE (" ".toList) c
  let c := trimL c
  let words := splitWs c
  let meaningful := words.countP (fun w => decide (2 ≤ w.length))
  let c :=
    if 0 < words.length ∧ meaningful < words.length / 2 then
      joinSpace (words.filter (fun w =>
        let w2 := trimL w
        decide (2 ≤ w2.length) || parsesAsU32 w2))
    else c
  let c := replaceAllRe isolatedPunctRE (" ".toList) c
  trimL c

/-- `clean_ocr_text` (source lines 749–875): character fixes, the
substitution passes, then the two safety rails.  `original_text` in the
source is the text after character fixes. -/
def cleanOcrText (text : List Char) : List Char :=
  if text.isEmpty then []
  else
    let fixed := fixOcrCharacterMistakes text
    let finalCleaned := cleanPasses fixed
    if finalCleaned ≠ [] ∧ finalCleaned.length < thresh30 fixed.length then
      fixed
    else if realWordCount finalCleaned = 0 ∧ 0 < realWordCount fixed then
      fixed
    else
      finalCleaned

/-! ### `detect_collections`

The source computes all signals as `let` bindings inside one function;
here each signal is a named definition on the input text (a pure
refactoring — every definition body is the source expression). -/

/-- `lines`: trimmed, non-empty lines of the text. -/
def msgLines (text : List Char) : List (List Char) :=
  ((linesOf text).map trimL).filter (fun l => !l.isEmpty)

/-- `short_lines`: lines of length 1..119. -/
def shortLinesCount (text : List Char) : Nat :=
  (msgLines text).countP (fun l => decide (0 < l.length) && decide (l.length < 120))

/-- `has_name_prefixes`: lines matching `name_pattern`. -/
def namePrefixCount (text : List Char) : Nat :=
  (msgLines text).countP namePatMatch

/-- `lines_with_timestamps`: lines matching `\d{1,2}:\d{2}`. -/
def lineTimestampCount (text : List Char) : Nat :=
  (msgLines text).countP (fun l => reIsMatch lineTimeRE l)

/-- `has_message_bubbles` (the primary Messages indicator). -/
def hasMessageBubbles (text : List Char) : Bool :=
  decide (3 ≤ shortLinesCount text) ||
  (decide (2 ≤ shortLinesCount text) && decide (1 ≤ namePrefixCount text)) ||
  (decide (2 ≤ shortLinesCount text) && decide (1 ≤ lineTimestampCount text)) ||
  decide (2 ≤ namePrefixCount text) ||
  (decide (2 ≤ lineTimestampCount text) && decide (1 ≤ shortLinesCount text))

/-- `has_timestamps_12h || has_timestamps_24h` (each a
`find_iter(..).count() >= 1`). -/
def hasAnyTimestamp (text : List Char) : Bool :=
  decide (1 ≤ countMatchesRe time12RE text) ||
  decide (1 ≤ countMatchesRe time24RE text)

/-- The messaging-app-name needles. -/
def msgAppNeedles : List (List Char) :=
  (["imessage", "slack", "discord", "whatsapp", "telegram", "signal",
    "messenger", "facebook messenger", "group chat", "direct message",
    "dm", "thread", "channel", "conversation", "chat"]).map String.toList

/-- `has_message_apps`. -/
def hasMessageApps (text : List Char) : Bool :=
  msgAppNeedles.any (fun n => containsL (toLowerL text) n)

/-- `has_read_receipts`. -/
def hasReadReceipts (text : List Char) : Bool :=
  let tl := toLowerL text
  containsL tl ("read".toList) || containsL tl ("delivered".toList) ||
  containsL tl ("sent".toList) || containsL tl ("seen".toList) ||
  containsL tl ("typing".toList) || containsL tl ("online".toList) ||
  containsL tl ("offline".toList) || containsL tl ("last seen".toList)

/-- The chat-slang needles (source list, duplicates included). -/
def chatWordNeedles : List (List Char) :=
  (["lmao", "lol", "omg", "btw", "imo", "tbh", "haha", "hahaha",
    "lmaoo", "lmfao", "fr", "ngl", "wyd", "wbu", "ttyl", "brb",
    "thanks", "thank you", "np", "yw", "gg", "gl", "hf", "ikr",
    "smh", "fyi", "asap", "tbh", "imo", "idk", "ik", "yeah", "yep",
    "nah", "nope", "sure", "ok", "okay", "k", "kk", "got it",
    "sounds good", "cool", "nice", "awesome", "perfect"]).map String.toList

/-- `has_chat_words`. -/
def hasChatWords (text : List Char) : Bool :=
  chatWordNeedles.any (fun n => containsL (toLowerL text) n)

/-- `has_questions` (`text.matches('?').count() >= 1`). -/
def hasQuestions (text : List Char) : Bool :=
  decide (1 ≤ countCharIn text '?')

/-- The casual-greeting needles. -/
def greetingNeedles : List (List Char) :=
  (["hey", "hi", "hello", "sup", "what\x27s up", "how are you",
    "how\x27s it going", "what\x27s going on", "how\x27s everything",
    "how have you been", "long time", "miss you"]).map String.toList

/-- `has_casual_greetings`. -/
def hasCasualGreetings (text : List Char) : Bool :=
  greetingNeedles.any (fun n => containsL (toLowerL text) n)

/-- The date-header needles. -/
def dateHeaderNeedles : List (List Char) :=
  (["today", "yesterday", "just now", "this week", "this month",
    "monday", "tuesday", "wednesday", "thursday", "friday", "saturday",
    "sunday"]).map String.toList

/-- `has_date_headers`. -/
def hasDateHeaders (text : List Char) : Bool :=
  dateHeaderNeedles.any (fun n => containsL (toLowerL text) n)

/-- `has_conversation_indicators`. -/
def hasConversationIndicators (text : List Char) : Bool :=
  decide (2 < countCharIn text ':') &&
    (decide (1 < countCharIn text '\n') || decide (1 < shortLinesCount text))

/-- `has_emoji_like`. -/
def hasEmojiLike (text : List Char) : Bool :=
  containsL text (":)".toList) || containsL text (":(".toList) ||
  containsL text (":D".toList) || containsL text ("<3".toList) ||
  containsL text (":P".toList) || containsL text (";)".toList)

/-- The secondary Messages signal (the `else if` condition of STEP 1). -/
def msgSecondary (text : List Char) : Bool :=
  hasAnyTimestamp text ||
  hasMessageApps text ||
  hasReadReceipts text ||
  (hasChatWords text && (hasQuestions text || hasConversationIndicators text)) ||
  (hasQuestions text && hasCasualGreetings text) ||
  (hasDateHeaders text && hasAnyTimestamp text) ||
  (hasEmojiLike text && hasQuestions text)

/-- The code-keyword needles. -/
def codeKeywordNeedles : List (List Char) :=
  (["function", "const", "let", "var", "class", "import", "export",
    "def", "return", "async", "await", "fn", "impl", "struct"]).map String.toList

/-- `has_code_keywords` (checked on the lowercased text). -/
def hasCodeKeywords (text : List Char) : Bool :=
  codeKeywordNeedles.any (fun n => containsL (toLowerL text) n)

/-- The code-symbol needles (checked on the original text). -/
def codeSymbolNeedles : List (List Char) :=
  (["\x7b", "\x7d", "=>", "->", "::", "()"]).map String.toList

/-- `has_code_symbols`. -/
def hasCodeSymbols (text : List Char) : Bool :=
  codeSymbolNeedles.any (fun n => containsL text n)

/-- `has_indentation`: `(?m)^    `. -/
def hasIndentation (text : List Char) : Bool :=
  mlIsMatch (litS "    ") text

/-- `has_comments`. -/
def hasComments (text : List Char) : Bool :=
  containsL text ("//".toList) || containsL text ("/*".toList) ||
  containsL text ("#".toList)

/-- The STEP 2 Code condition. -/
def codeCond (text : List Char) : Bool :=
  hasCodeKeywords text &&
    (hasCodeSymbols text || hasIndentation text || hasComments text)

/-- `has_colors`: `#RRGGBB` count > 0. -/
def hasColors (text : List Char) : Bool :=
  decide (0 < countMatchesRe hexRE text)

/-- `has_design_tools`. -/
def hasDesignTools (text : List Char) : Bool :=
  ((["figma", "sketch", "adobe", "photoshop", "illustrator"]).map String.toList).any
    (fun n => containsL (toLowerL text) n)

/-- `has_design_terms`. -/
def hasDesignTerms (text : List Char) : Bool :=
  ((["px", "rem", "font", "color", "background", "border", "padding",
    "margin"]).map String.toList).any (fun n => containsL (toLowerL text) n)

/-- The STEP 3 Design condition. -/
def designCond (text : List Char) : Bool :=
  hasColors text || hasDesignTools text ||
    (hasDesignTerms text && containsL (toLowerL text) ("design".toList))

/-- `has_prices`: `\$\d+\.\d{2}` count > 0. -/
def hasPrices (text : List Char) : Bool :=
  decide (0 < countMatchesRe priceRE text)

/-- `has_receipt_words`. -/
def hasReceiptWords (text : List Char) : Bool :=
  ((["total", "subtotal", "tax", "receipt", "invoice", "paid",
    "order"]).map String.toList).any (fun n => containsL (toLowerL text) n)

/-- `has_dates`: `\d{1,2}/\d{1,2}/\d{2,4}` is_match. -/
def hasDates (text : List Char) : Bool := reIsMatch dateRE text

/-- The STEP 4 Receipts condition. -/
def receiptsCond (text : List Char) : Bool :=
  hasPrices text && (hasReceiptWords text || hasDates text)

/-- `has_urls`. -/
def hasUrls (text : List Char) : Bool :=
  decide (0 < countMatchesRe urlRE text)

/-- `has_www` (case-sensitive, on the original text). -/
def hasWww (text : List Char) : Bool :=
  containsL text ("www.".toList) || containsL text ("http".toList)

/-- `has_browser_ui`. -/
def hasBrowserUi (text : List Char) : Bool :=
  ((["address bar", "bookmarks", "back", "forward", "refresh", "home",
    "chrome", "safari", "firefox", "edge", "brave", "opera",
    "new tab", "close tab", "search", "omnibox", "url bar"]).map String.toList).any
    (fun n => containsL (toLowerL text) n)

/-- `has_nav_elements`. -/
def hasNavElements (text : List Char) : Bool :=
  containsL text ("←".toList) || containsL text ("→".toList) ||
  containsL text ("↻".toList) || containsL text ("⌂".toList) ||
  containsL (toLowerL text) ("navigation".toList) ||
  containsL (toLowerL text) ("menu".toList)

/-- `has_domains`: domain-shaped tokens in the lowercased text, > 2. -/
def hasDomains (text : List Char) : Bool :=
  decide (2 < countMatchesRe domainRE (toLowerL text))

/-- `has_browser_patterns`. -/
def hasBrowserPatterns (text : List Char) : Bool :=
  containsL (toLowerL text) ("://".toList) ||
  (hasUrls text && decide (20 < (splitWs text).length)) ||
  (hasDomains text && hasUrls text)

/-- The STEP 5 Browser condition (pushes a tag without returning). -/
def browserCond (text : List Char) : Bool :=
  hasUrls text || hasWww text || hasBrowserUi text || hasNavElements text ||
    hasBrowserPatterns text

/-- `has_prompts` (case-sensitive, on the original text). -/
def hasPrompts (text : List Char) : Bool :=
  containsL text ("$ ".toList) || containsL text ("~ ".toList) ||
  containsL text ("> ".toList)

/-- `has_commands` (case-sensitive, on the original text). -/
def hasCommands (text : List Char) : Bool :=
  ((["cd ", "ls ", "git ", "npm ", "cargo ", "python ",
    "node "]).map String.toList).any (fun n => containsL text n)

/-- The Terminal condition (returns, overriding Browser). -/
def terminalCond (text : List Char) : Bool :=
  hasPrompts text || hasCommands text

/-- `has_errors`. -/
def hasErrorWords (text : List Char) : Bool :=
  ((["error", "exception", "failed", "panic", "segfault", "undefined",
    "traceback", "stack trace"]).map String.toList).any
    (fun n => containsL (toLowerL text) n)

/-- `has_stack_trace` (case-sensitive, on the original text). -/
def hasStackTrace (text : List Char) : Bool :=
  (containsL text ("at ".toList) && containsL text (".js:".toList)) ||
  containsL text ("Traceback".toList)

/-- The STEP 7 Errors condition (pushes a tag without returning). -/
def errorsCond (text : List Char) : Bool :=
  hasErrorWords text || hasStackTrace text

/-- `is_likely_message` (the guard of the Documents step). -/
def isLikelyMessage (text : List Char) : Bool :=
  hasAnyTimestamp text || hasMessageApps text || hasReadReceipts text ||
  hasChatWords text || hasMessageBubbles text || hasDateHeaders text ||
  hasQuestions text || hasCasualGreetings text

/-- The document-vocabulary needles. -/
def docPatternNeedles : List (List Char) :=
  (["chapter", "section", "paragraph", "article", "document",
    "page", "heading", "title", "author", "date", "published",
    "abstract", "introduction", "conclusion", "references",
    "table of contents", "bibliography"]).map String.toList

/-- The STEP 8 Documents condition (evaluated only when no message
signal fired and no tag has been chosen; `word_count` here is
recomputed from the full text as in the source). -/
def documentsCond (text : List Char) : Bool :=
  let wordCount := (splitWs text).length
  let hasParagraphs :=
    decide (2 < splitPieceCount text ("\n\n".toList)) ||
    decide (5 < countCharIn text '\n')
  let hasSentences :=
    decide (3 < countCharIn text '.') || decide (1 < countCharIn text '!') ||
    decide (1 < countCharIn text '?')
  let hasDocPatterns := docPatternNeedles.any (fun n => containsL (toLowerL text) n)
  let hasLists :=
    containsL text ("•".toList) || containsL text ("- ".toList) ||
    mlIsMatch numberedListRE text ||
    decide (2 < countSubL text ("\n- ".toList)) ||
    decide (2 < countSubL text ("\n• ".toList))
  let hasFormalLanguage :=
    containsL (toLowerL text) ("therefore".toList) ||
    containsL (toLowerL text) ("however".toList) ||
    containsL (toLowerL text) ("furthermore".toList) ||
    containsL (toLowerL text) ("moreover".toList) ||
    containsL (toLowerL text) ("in conclusion".toList) ||
    containsL (toLowerL text) ("in summary".toList)
  let isPlainText :=
    decide (50 < wordCount) && (hasParagraphs || hasSentences) &&
    !hasUrls text && !hasCodeKeywords text && !hasPrompts text &&
    (hasDocPatterns || hasLists || hasFormalLanguage)
  isPlainText ||
    (decide (100 < wordCount) && (hasDocPatterns || hasLists) && !hasQuestions text)

/-- `has_minimal_text` (from the top-of-function `char_count` and
`word_count`, both computed on the trimmed text). -/
def hasMinimalText (text : List Char) : Bool :=
  decide ((trimL text).length < 50) || decide ((splitWs (trimL text)).length < 10)

/-- The UI-overlay needles. -/
def overlayNeedles : List (List Char) :=
  (["screenshot", "image", "photo", "picture", "camera", "gallery",
    "album", "instagram", "snapchat", "filters"]).map String.toList

/-- `is_ui_overlay`. -/
def isUiOverlay (text : List Char) : Bool :=
  decide ((splitWs (trimL text)).length < 20) &&
    overlayNeedles.any (fun n => containsL (toLowerL text) n)

/-- `is_ocr_noise`. -/
def isOcrNoise (text : List Char) : Bool :=
  let tt := trimL text
  decide (0 < tt.length) && decide (tt.length < 30) &&
    (decide (tt.countP (fun c => isAlnumCh c) < 15) ||
     decide (tt.length / 2 < tt.countP (fun c => isUpperCh c)))

/-- The STEP 9 Images condition, given whether the tag list is still
empty. -/
def imagesCond (text : List Char) (tagsEmpty : Bool) : Bool :=
  (hasMinimalText text && tagsEmpty && decide (0 < (trimL text).length)) ||
  (isUiOverlay text && tagsEmpty) ||
  (isOcrNoise text && tagsEmpty)

/-- `detect_collections` (source lines 403–712), with the source's
early returns written as nested conditionals.  Browser and Errors push
a tag and fall through; Terminal and Documents return. -/
def detectCollections (text : List Char) : List String :=
  if hasMessageBubbles text then ["Messages"]
  else if msgSecondary text then ["Messages"]
  else if codeCond text then ["Code"]
  else if designCond text then ["Design"]
  else if receiptsCond text then ["Receipts"]
  else
    let tags1 : List String := if browserCond text then ["Browser"] else []
    if terminalCond text then tags1 ++ ["Terminal"]
    else
      let tags2 : List String :=
        if errorsCond text then tags1 ++ ["Errors"] else tags1
      if !isLikelyMessage text && tags2.isEmpty && documentsCond text then
        tags2 ++ ["Documents"]
      else if imagesCond text tags2.isEmpty then
        tags2 ++ ["Images"]
      else
        tags2

/-! ### `extract_urls_and_emails` -/

/-- Email local-part class `[A-Za-z0-9._%+-]`. -/
def emailLocalCls (c : Char) : Bool :=
  isAlnumCh c || (c = '.') || (c = '_') || (c = '%') || (c = '+') || (c = '-')

/-- Email domain class `[A-Za-z0-9.-]`. -/
def emailDomCls (c : Char) : Bool :=
  isAlnumCh c || (c = '.') || (c = '-')

/-- Email TLD class `[A-Z|a-z]` (the literal class from the source,
which includes `|`). -/
def emailTldCls (c : Char) : Bool := isAlphaCh c || (c = '|')

/-- `\b[A-Za-z0-9._%+-]+@[A-Za-z0-9.-]+\.[A-Z|a-z]{2,}\b`
(`email_pattern`). -/
def emailRE : RE :=
  seqRE [RE.wb, RE.cls emailLocalCls, RE.starCl emailLocalCls, litS "@",
    RE.cls emailDomCls, RE.starCl emailDomCls, litS ".",
    RE.cls emailTldCls, RE.cls emailTldCls, RE.starCl emailTldCls, RE.wb]

/-- `extract_urls_and_emails` (source lines 714–727): the matches of
the URL and email patterns, in order, duplicates preserved. -/
def extractUrlsAndEmails (text : List Char) : List (List Char) × List (List Char) :=
  (findAllRe urlRE text, findAllRe emailRE text)

/-! ### `combine_ocr_results` -/

/-- Token normalisation in the merge:
`word.to_lowercase().trim_matches(|c| !c.is_alphanumeric())`. -/
def normalizeTok (w : List Char) : List Char :=
  let lw := toLowerL w
  ((lw.dropWhile (fun c => !isAlnumCh c)).reverse.dropWhile
    (fun c => !isAlnumCh c)).reverse

/-- One iteration of the merge loops: push the original token when its
normalised form is non-empty and newly inserted into `seen`
(`!normalized.is_empty() && seen.insert(normalized)`). -/
def mergeStep (acc : List (List Char) × List (List Char)) (w : List Char) :
    List (List Char) × List (List Char) :=
  let norm := normalizeTok w
  if norm.isEmpty then acc
  else if norm ∈ acc.2 then acc
  else (acc.1 ++ [w], acc.2 ++ [norm])

/-- `combine_ocr_results` (source lines 987–1039).  The `(Some, Some)`
branch prefers the much-longer text, otherwise runs the two merge loops
(Vision words, then Tesseract words, sharing the `seen` set). -/
def combineOcrResults : Option (List Char) → Option (List Char) → List Char
  | some v, some t =>
    if t.length * 2 < v.length then v
    else if v.length * 2 < t.length then t
    else
      let st1 := (splitWs v).foldl mergeStep ([], [])
      let st2 := (splitWs t).foldl mergeStep st1
      joinSpace st2.1
  | some v, none => v
  | none, some t => t
  | none, none => []

/-- The claim's wording of the merge: walk the Vision tokens followed
by the Tesseract tokens, emitting each token whose normalised form is
non-empty and not already emitted. -/
def dedupTokens : List (List Char) → List (List Char) → List (List Char)
  | [], _ => []
  | w :: ws, seen =>
    let n := normalizeTok w
    if n.isEmpty then dedupTokens ws seen
    else if n ∈ seen then dedupTokens ws seen
    else w :: dedupTokens ws (n :: seen)

/-- The claim's wording of the whole both-present fusion rule. -/
def fusionSpec (v t : List Char) : List Char :=
  if 2 * t.length < v.length then v
  else if 2 * v.length < t.length then t
  else joinSpace (dedupTokens (splitWs v ++ splitWs t) [])

/-! ### Perceptual-hash distance -/

/-- `count_ones` of a byte value (the hashes are `Vec<u8>`, so every
xor is < 256): the sum of the eight bits. -/
def countOnes (n : Nat) : Nat :=
  n % 2 + n / 2 % 2 + n / 4 % 2 + n / 8 % 2 +
  n / 16 % 2 + n / 32 % 2 + n / 64 % 2 + n / 128 % 2

/-- `hamming_distance` (source lines 742–747): zip the two byte
strings, xor pointwise, sum the popcounts. -/
def hammingDistance : List Nat → List Nat → Nat
  | a :: as_, b :: bs => countOnes (a ^^^ b) + hammingDistance as_ bs
  | _, _ => 0

/-! ### `slugify_text` -/

/-- `char::is_ascii_whitespace`: space, tab, newline, carriage return,
form feed. -/
def isAsciiWsCh (c : Char) : Bool :=
  (c = ' ') || (c = '\t') || (c = '\n') || (c = '\r') || (c = '\x0c')

/-- `char::to_ascii_lowercase`. -/
def toAsciiLowerCh (c : Char) : Char := toLowerCh c

/-- One loop iteration of `slugify_text`: push a lowercased ASCII
alphanumeric, or a separating dash for whitespace/`-`/`_`. -/
def slugStep (c : Char) (out : List Char) (lastDash : Bool) : List Char × Bool :=
  if isAlnumCh c then (out ++ [toAsciiLowerCh c], false)
  else if isAsciiWsCh c || (c = '-') || (c = '_') then
    if !lastDash && !out.isEmpty then (out ++ ['-'], true) else (out, lastDash)
  else (out, lastDash)

/-- The `for ch in text.chars()` loop of `slugify_text`, with the
`if out.len() >= 60 { break; }` check after each character. -/
def slugLoop : List Char → List Char → Bool → List Char
  | [], out, _ => out
  | c :: cs, out, lastDash =>
    let st := slugStep c out lastDash
    if 60 ≤ st.1.length then st.1 else slugLoop cs st.1 st.2

/-- The loop result with the trailing dash dropped (the filtered
result, before the `"screenshot"` default). -/
def slugCore (text : List Char) : List Char :=
  let r := slugLoop text [] false
  if r.getLast? = some '-' then r.dropLast else r

/-- `slugify_text` (source lines 1326–1354). -/
def slugifyText (text : List Char) : List Char :=
  if (slugCore text).isEmpty then "screenshot".toList else slugCore text

/-! ### The index model: `save_entry_to_db`, `reprocess_all_tags`

The `entries` table (UNIQUE on `path`) is modelled as an association
list keyed by path; `INSERT OR REPLACE` replaces the row with the
matching key. -/

/-- JSON string escaping as `serde_json` performs it on the tag / URL /
email strings (quote, backslash, and common control characters). -/
def jsonEscape (s : List Char) : List Char :=
  s.flatMap (fun c =>
    if c = '"' then ['\\', '"']
    else if c = '\\' then ['\\', '\\']
    else if c = '\n' then ['\\', 'n']
    else if c = '\t' then ['\\', 't']
    else if c = '\r' then ['\\', 'r']
    else [c])

/-- `serde_json::to_string` on a `Vec<String>`. -/
def jsonArr (l : List (List Char)) : List Char :=
  let rec inner : List (List Char) → List Char
    | [] => []
    | [w] => '"' :: jsonEscape w ++ ['"']
    | w :: ws => '"' :: jsonEscape w ++ '"' :: ',' :: inner ws
  '[' :: inner l ++ [']']

/-- One row of the `entries` table. -/
structure Entry where
  text : List Char
  createdAt : List Char
  processedAt : List Char
  updatedAt : List Char
  tags : List Char
  urls : List Char
  emails : List Char
  phash : Option (List Nat)
  deriving Repr, DecidableEq

/-- The tag list `save_entry_to_db` derives: `["Images"]` when the
trimmed text is empty or shorter than 10 characters, else the
classifier's output. -/
def saveEntryTags (text : List Char) : List String :=
  if (trimL text).isEmpty || (trimL text).length < 10 then ["Images"]
  else detectCollections text

/-- The row `save_entry_to_db` writes, given the hash function of the
(unchanged) on-disk image and the current time in seconds. -/
def saveEntryRow (hashAt : List Char → Option (List Nat)) (nowSecs : Nat)
    (path text createdAt : List Char) : Entry :=
  let nowStr := (toString nowSecs).toList
  let tagsJson := jsonArr ((saveEntryTags text).map String.toList)
  let ue := extractUrlsAndEmails text
  { text := text
    createdAt := createdAt
    processedAt := nowStr
    updatedAt := nowStr
    tags := tagsJson
    urls := jsonArr ue.1
    emails := jsonArr ue.2
    phash := hashAt path }

/-- `INSERT OR REPLACE` into a table with UNIQUE `path`. -/
def upsertRow (db : List (List Char × Entry)) (path : List Char) (row : Entry) :
    List (List Char × Entry) :=
  (path, row) :: db.filter (fun e => e.1 ≠ path)

/-- `save_entry_to_db` (source lines 1461–1506) acting on the table
model. -/
def saveEntryToDb (hashAt : List Char → Option (List Nat)) (nowSecs : Nat)
    (db : List (List Char × Entry)) (path text createdAt : List Char) :
    List (List Char × Entry) :=
  upsertRow db path (saveEntryRow hashAt nowSecs path text createdAt)

/-- Row lookup by path. -/
def dbLookup (db : List (List Char × Entry)) (path : List Char) : Option Entry :=
  (db.find? (fun e => e.1 = path)).map (fun e => e.2)

/-- Number of rows with the given path. -/
def dbCountPath (db : List (List Char × Entry)) (path : List Char) : Nat :=
  db.countP (fun e => e.1 = path)

/-- The tags JSON `reprocess_all_tags` (source lines 2256–2299) writes
for a row: the classifier output on the stored text, serialised —
without the forced-`["Images"]` rule of the upsert path. -/
def reprocessRowTags (storedText : List Char) : List Char :=
  jsonArr ((detectCollections storedText).map String.toList)

/-- `reprocess_all_tags` over the table model: every row's `tags`
column is rewritten from its stored text. -/
def reprocessAllTags (db : List (List Char × Entry)) : List (List Char × Entry) :=
  db.map (fun e => (e.1, { e.2 with tags := reprocessRowTags e.2.text }))

/-! ### `delete_files`

Filesystem calls are modelled as a record of pure maps: existence,
canonicalisation (to a component list, since `Path::starts_with` is
component-wise), and the success of the two `remove_file` call sites.
Metadata is treated as stable over the call (removing one file does not
change another path's existence or canonical form); deletions are
recorded only in the returned lists. -/

/-- The filesystem view `delete_files` sees. -/
structure FsView where
  fileExists : List Char → Bool
  canonical : List Char → Option (List (List Char))
  removeRawOk : List Char → Bool
  removeCanonOk : List (List Char) → Bool

/-- Component-wise path prefix, the model of `Path::starts_with`. -/
def prefixOfL : List (List Char) → List (List Char) → Bool
  | [], _ => true
  | _ :: _, [] => false
  | d :: ds, c :: cs => (d = c) && prefixOfL ds cs

/-- `canonical_path.starts_with(canonical_dir)` test over all watch
directories (`unwrap_or(false)` when a directory fails to
canonicalise). -/
def allowedIn (fs : FsView) (dirs : List (List Char)) (cp : List (List Char)) : Bool :=
  dirs.any (fun d =>
    match fs.canonical d with
    | some cd => prefixOfL cd cp
    | none => false)

/-- The per-path body of the `delete_files` loop (source lines
2013–2063), threading the `(deleted, failed)` accumulators. -/
def deleteStep (fs : FsView) (dirs : List (List Char))
    (acc : List (List Char) × List (List Char)) (p : List Char) :
    List (List Char) × List (List Char) :=
  if !fs.fileExists p then (acc.1 ++ [p], acc.2)
  else
    match fs.canonical p with
    | none =>
      if fs.removeRawOk p then (acc.1 ++ [p], acc.2) else (acc.1, acc.2 ++ [p])
    | some cp =>
      if !allowedIn fs dirs cp then (acc.1, acc.2 ++ [p])
      else if fs.removeCanonOk cp then (acc.1 ++ [p], acc.2)
      else (acc.1, acc.2 ++ [p])

/-- `delete_files` (source lines 2000–2066). -/
def deleteFiles (fs : FsView) (dirs : List (List Char)) (paths : List (List Char)) :
    Except String (List (List Char) × List (List Char)) :=
  if paths.isEmpty then .error "No files selected for deletion"
  else if dirs.isEmpty then .error "Watch directories not available"
  else .ok (paths.foldl (deleteStep fs dirs) ([], []))

/-! ### The created-at computation of `process_screenshot`

The on-disk state is a map from path to the file's creation time in
milliseconds; `fs::rename` moves the entry, after which metadata of the
old path is gone. -/

/-- `get_file_created_at` (source lines 52–75) over the map model:
the creation time in milliseconds, rendered in decimal. -/
def getFileCreatedAt (fsCreated : List Char → Option Nat) (p : List Char) :
    Option (List Char) :=
  (fsCreated p).map (fun ms => (toString ms).toList)

/-- `fs::rename(old, new)` on the metadata map. -/
def renameFs (fsCreated : List Char → Option Nat) (oldP newP : List Char) :
    List Char → Option Nat :=
  fun q => if q = newP then fsCreated oldP else if q = oldP then none else fsCreated q

/-- The success branch of `process_screenshot` (source lines
1614–1651): the rename runs first; `created_at` is then read from the
ORIGINAL path (of the post-rename filesystem) with a fallback to the
current time in seconds.  Returns `(final_path, created_at written to
the row)`. -/
def processScreenshotSave (fsCreated : List Char → Option Nat)
    (p newP : List Char) (renameOk : Bool) (nowSecs : Nat) :
    List Char × List Char :=
  let fsAfter := if renameOk then renameFs fsCreated p newP else fsCreated
  let finalPath := if renameOk then newP else p
  let createdAt := (getFileCreatedAt fsAfter p).getD ((toString nowSecs).toList)
  (finalPath, createdAt)

/-! ## Claims -/

/-- C1: the claim says the row's `created_at` is the pre-rename
creation timestamp in milliseconds.  The code computes `created_at`
from the ORIGINAL path AFTER the rename has moved the file, so the
metadata read fails and the fallback stores the current time in
SECONDS: for a file created at 1700000000123 ms, renamed successfully
at wall-clock second 1700000100, the row receives "1700000100" and not
"1700000000123" — even though reading the original path before the
rename (as the in-source comment describes) yields the claimed value. -/
theorem c1_created_at_not_preserved :
    getFileCreatedAt
        (fun q => if q = ("/d/Screenshot.png".toList) then some 1700000000123 else none)
        ("/d/Screenshot.png".toList) = some ("1700000000123".toList) ∧
    processScreenshotSave
        (fun q => if q = ("/d/Screenshot.png".toList) then some 1700000000123 else none)
        ("/d/Screenshot.png".toList) ("/d/slug-1700000100.png".toList) true 1700000100 =
      (("/d/slug-1700000100.png".toList), ("1700000100".toList)) ∧
    ("1700000100".toList) ≠ ("1700000000123".toList) := by
  refine ⟨by decide, by decide, by decide⟩

/-- C2 counterexample: on input "1m 2h 3d" the cleaning passes produce
"" (length 0, below 30% of the pre-cleaning length 8), yet
`clean_ocr_text` returns "" rather than the pre-cleaning text: the
source's rollback additionally requires the cleaned text to be
non-empty. -/
theorem c2_cleaner_rollback_counterexample :
    cleanPasses (fixOcrCharacterMistakes ("1m 2h 3d".toList)) = [] ∧
    (cleanPasses (fixOcrCharacterMistakes ("1m 2h 3d".toList))).length <
      thresh30 (fixOcrCharacterMistakes ("1m 2h 3d".toList)).length ∧
    fixOcrCharacterMistakes ("1m 2h 3d".toList) = ("1m 2h 3d".toList) ∧
    cleanOcrText ("1m 2h 3d".toList) = [] ∧
    cleanOcrText ("1m 2h 3d".toList) ≠ ("1m 2h 3d".toList) := by
  refine ⟨by decide, by decide, by decide, by decide, by decide⟩

/-- C2 amended: for every input text, if the cleaning passes produce a
NON-EMPTY result whose length is below 30% of the pre-cleaning
(post-character-fix) text's length, `clean_ocr_text` returns the
pre-cleaning text. -/
theorem c2_cleaner_rollback_amended (t : List Char) (hne : t ≠ [])
    (h1 : cleanPasses (fixOcrCharacterMistakes t) ≠ [])
    (h2 : (cleanPasses (fixOcrCharacterMistakes t)).length <
      thresh30 (fixOcrCharacterMistakes t).length) :
    cleanOcrText t = fixOcrCharacterMistakes t := by
  have hE : t.isEmpty = false := by
    cases t with
    | nil => exact absurd rfl hne
    | cons a l => rfl
  unfold cleanOcrText
  rw [hE]
  simp only [Bool.false_eq_true, if_false]
  rw [if_pos ⟨h1, h2⟩]

/-- C2 amended, witness: the input "abc Read Delivered Sending Sent"
cleans to "abc" (length 3 < 30% of 31) and is rolled back verbatim. -/
theorem c2_cleaner_rollback_amended_witness :
    ("abc Read Delivered Sending Sent".toList) ≠ ([] : List Char) ∧
    cleanPasses (fixOcrCharacterMistakes ("abc Read Delivered Sending Sent".toList)) ≠ [] ∧
    (cleanPasses (fixOcrCharacterMistakes ("abc Read Delivered Sending Sent".toList))).length <
      thresh30 (fixOcrCharacterMistakes ("abc Read Delivered Sending Sent".toList)).length ∧
    cleanOcrText ("abc Read Delivered Sending Sent".toList) =
      fixOcrCharacterMistakes ("abc Read Delivered Sending Sent".toList) :=
  ⟨by decide, by decide, by decide,
    c2_cleaner_rollback_amended _ (by decide) (by decide) (by decide)⟩

/-- C3: every text satisfying both the Messages rule (message bubbles
or the secondary message signals) and the Code rule classifies as
exactly `["Messages"]`. -/
theorem c3_classifier_priority (t : List Char)
    (hm : (hasMessageBubbles t || msgSecondary t) = true)
    (hc : codeCond t = true) :
    detectCollections t = ["Messages"] := by
  cases hb : hasMessageBubbles t with
  | true => simp [detectCollections, hb]
  | false =>
    have hs : msgSecondary t = true := by
      rw [hb] at hm
      simpa using hm
    simp [detectCollections, hb, hs]

/-- C3 witness: `"const x = {}\nAlex: hi\nBob: yo"` satisfies both the
Messages rule (3 short lines) and the Code rule (`const` plus a brace)
and classifies as `["Messages"]`. -/
theorem c3_classifier_priority_witness :
    ((hasMessageBubbles ("const x = \x7b\x7d\nAlex: hi\nBob: yo".toList) ||
        msgSecondary ("const x = \x7b\x7d\nAlex: hi\nBob: yo".toList)) = true ∧
      codeCond ("const x = \x7b\x7d\nAlex: hi\nBob: yo".toList) = true) ∧
    detectCollections ("const x = \x7b\x7d\nAlex: hi\nBob: yo".toList) = ["Messages"] :=
  ⟨⟨by decide, by decide⟩,
    c3_classifier_priority _ (by decide) (by decide)⟩

/-- C5 counterexample: the claim keys the forced `["Images"]` on the
raw text argument being empty or shorter than 10 characters, but the
source tests the TRIMMED length: `" 12:34 ab "` has raw length 10
(so by the claim the classifier's tags, `["Messages"]`, should be
written) yet its trimmed length is 8, so the code forces
`["Images"]`. -/
theorem c5_upsert_tag_forcing_counterexample :
    (" 12:34 ab ".toList).length = 10 ∧
    (" 12:34 ab ".toList) ≠ [] ∧
    detectCollections (" 12:34 ab ".toList) = ["Messages"] ∧
    saveEntryTags (" 12:34 ab ".toList) = ["Images"] ∧
    saveEntryTags (" 12:34 ab ".toList) ≠ detectCollections (" 12:34 ab ".toList) := by
  refine ⟨by decide, by decide, by decide, by decide, by decide⟩

/-- C5 amended: the upsert forces `["Images"]` exactly when the TRIMMED
text is shorter than 10 characters (which subsumes empty/whitespace
text); otherwise the tags are the classifier's output on the text. -/
theorem c5_upsert_tag_forcing_amended (t : List Char) :
    ((trimL t).length < 10 → saveEntryTags t = ["Images"]) ∧
    (10 ≤ (trimL t).length → saveEntryTags t = detectCollections t) := by
  constructor
  · intro h
    have hc : ((trimL t).isEmpty || decide ((trimL t).length < 10)) = true := by
      simp [h]
    unfold saveEntryTags
    rw [if_pos hc]
  · intro h
    have h2 : (trimL t).isEmpty = false := by
      cases htr : trimL t with
      | nil => rw [htr] at h; simp at h
      | cons a as => rfl
    have hc : ((trimL t).isEmpty || decide ((trimL t).length < 10)) = false := by
      rw [h2]
      simp
      omega
    unfold saveEntryTags
    rw [if_neg (by simp [hc])]

/-- C5 amended, witness: empty text is forced to `["Images"]`; the
receipt text (trimmed length 25) gets the classifier's output. -/
theorem c5_upsert_tag_forcing_amended_witness :
    saveEntryTags ([] : List Char) = ["Images"] ∧
    saveEntryTags ("Total: $12.99  01/02/2024".toList) =
      detectCollections ("Total: $12.99  01/02/2024".toList) :=
  ⟨(c5_upsert_tag_forcing_amended []).1 (by decide),
   (c5_upsert_tag_forcing_amended _).2 (by decide)⟩

/-- Running the two merge loops of `combine_ocr_results` from any
accumulator equals the claim's single walk over the remaining tokens,
as long as the two `seen` representations hold the same normalised
forms. -/
theorem foldl_mergeStep_eq_dedup (ws : List (List Char)) :
    ∀ (acc seen1 seen2 : List (List Char)),
      (∀ x, x ∈ seen1 ↔ x ∈ seen2) →
      (ws.foldl mergeStep (acc, seen1)).1 = acc ++ dedupTokens ws seen2 := by
  induction ws with
  | nil => intro acc seen1 seen2 _; simp [dedupTokens]
  | cons w ws ih =>
    intro acc seen1 seen2 hsync
    by_cases hn : (normalizeTok w).isEmpty
    · rw [List.foldl_cons]
      have hstep : mergeStep (acc, seen1) w = (acc, seen1) := by
        simp [mergeStep, hn]
      rw [hstep]
      have hded : dedupTokens (w :: ws) seen2 = dedupTokens ws seen2 := by
        simp [dedupTokens, hn]
      rw [hded]
      exact ih acc seen1 seen2 hsync
    · by_cases hm : normalizeTok w ∈ seen1
      · rw [List.foldl_cons]
        have hstep : mergeStep (acc, seen1) w = (acc, seen1) := by
          simp [mergeStep, hn, hm]
        rw [hstep]
        have hded : dedupTokens (w :: ws) seen2 = dedupTokens ws seen2 := by
          simp [dedupTokens, hn, (hsync _).mp hm]
        rw [hded]
        exact ih acc seen1 seen2 hsync
      · rw [List.foldl_cons]
        have hstep : mergeStep (acc, seen1) w = (acc ++ [w], seen1 ++ [normalizeTok w]) := by
          simp [mergeStep, hn, hm]
        rw [hstep]
        have hded : dedupTokens (w :: ws) seen2 =
            w :: dedupTokens ws (normalizeTok w :: seen2) := by
          have : normalizeTok w ∉ seen2 := fun hx => hm ((hsync _).mpr hx)
          simp [dedupTokens, hn, this]
        rw [hded]
        have hsync2 : ∀ x, x ∈ seen1 ++ [normalizeTok w] ↔ x ∈ normalizeTok w :: seen2 := by
          intro x
          simp [hsync x]
          tauto
        rw [ih (acc ++ [w]) _ _ hsync2]
        simp

/-- C4: with both engine texts present, the compositor returns the
longer text when one exceeds twice the other's length, and otherwise
merges the whitespace tokens, Vision first, skipping tokens whose
normalised (lowercased, edge-stripped) form was already emitted, so
Vision's order and surface forms win on collisions. -/
theorem c4_compositor_fusion (v t : List Char) :
    combineOcrResults (some v) (some t) = fusionSpec v t := by
  have hm : ((splitWs t).foldl mergeStep ((splitWs v).foldl mergeStep ([], []))).1
      = dedupTokens (splitWs v ++ splitWs t) [] := by
    rw [← List.foldl_append]
    have := foldl_mergeStep_eq_dedup (splitWs v ++ splitWs t) [] [] []
      (fun x => Iff.rfl)
    simpa using this
  show (if t.length * 2 < v.length then v
    else if v.length * 2 < t.length then t
    else joinSpace (((splitWs t).foldl mergeStep ((splitWs v).foldl mergeStep ([], []))).1))
    = fusionSpec v t
  unfold fusionSpec
  rw [Nat.mul_comm t.length 2, Nat.mul_comm v.length 2, hm]

/-- Rows filtered out by key `p` contribute no row with key `p`. -/
theorem countP_filter_ne (p : List Char) (l : List (List Char × Entry)) :
    List.countP (fun e => decide (e.1 = p))
      (l.filter (fun e => decide ¬(e.1 = p))) = 0 := by
  induction l with
  | nil => rfl
  | cons a l ih =>
    by_cases hA : a.1 = p
    · simp [List.filter_cons, hA, ih]
    · simp [List.filter_cons, hA, List.countP_cons, ih]

/-- Looking up the path just upserted returns the upserted row. -/
theorem dbLookup_upsert (db : List (List Char × Entry)) (p : List Char) (row : Entry) :
    dbLookup (upsertRow db p row) p = some row := by
  simp [dbLookup, upsertRow, List.find?_cons]

/-- After an upsert there is exactly one row with the upserted path. -/
theorem dbCountPath_upsert (db : List (List Char × Entry)) (p : List Char) (row : Entry) :
    dbCountPath (upsertRow db p row) p = 1 := by
  simp [dbCountPath, upsertRow, List.countP_cons, countP_filter_ne]

/-- C6: upserting the same `(path, text, created_at)` twice (the image
unchanged, so the hash function is fixed) leaves exactly one row for
the path, and the second row agrees with the first on text,
created_at, tags, urls, emails and perceptual hash; only
processed_at/updated_at take the second call's clock. -/
theorem c6_upsert_idempotent (hashAt : List Char → Option (List Nat))
    (n1 n2 : Nat) (db : List (List Char × Entry)) (p t c : List Char) :
    ∃ r1 r2 : Entry,
      dbLookup (saveEntryToDb hashAt n1 db p t c) p = some r1 ∧
      dbLookup (saveEntryToDb hashAt n2 (saveEntryToDb hashAt n1 db p t c) p t c) p =
        some r2 ∧
      r2.text = r1.text ∧ r2.createdAt = r1.createdAt ∧ r2.tags = r1.tags ∧
      r2.urls = r1.urls ∧ r2.emails = r1.emails ∧ r2.phash = r1.phash ∧
      r2.processedAt = (toString n2).toList ∧ r2.updatedAt = (toString n2).toList ∧
      dbCountPath (saveEntryToDb hashAt n2 (saveEntryToDb hashAt n1 db p t c) p t c) p = 1 := by
  refine ⟨saveEntryRow hashAt n1 p t c, saveEntryRow hashAt n2 p t c,
    dbLookup_upsert _ _ _, dbLookup_upsert _ _ _,
    rfl, rfl, rfl, rfl, rfl, rfl, rfl, rfl, dbCountPath_upsert _ _ _⟩

/-- A byte's popcount is at most 8. -/
theorem countOnes_le_eight (n : Nat) : countOnes n ≤ 8 := by
  unfold countOnes
  omega

/-- Hamming distance is symmetric. -/
theorem hammingDistance_comm (a : List Nat) : ∀ b, hammingDistance a b = hammingDistance b a := by
  induction a with
  | nil => intro b; cases b <;> rfl
  | cons x xs ih =>
    intro b
    cases b with
    | nil => rfl
    | cons y ys =>
      unfold hammingDistance
      rw [Nat.xor_comm, ih ys]

/-- Hamming distance of a byte string to itself is 0. -/
theorem hammingDistance_self (a : List Nat) : hammingDistance a a = 0 := by
  induction a with
  | nil => rfl
  | cons x xs ih =>
    unfold hammingDistance
    rw [Nat.xor_self, ih]
    rfl

/-- Hamming distance is bounded by 8 bits per byte of the first
argument. -/
theorem hammingDistance_le (a : List Nat) : ∀ b, hammingDistance a b ≤ 8 * a.length := by
  induction a with
  | nil => intro b; cases b <;> simp [hammingDistance]
  | cons x xs ih =>
    intro b
    cases b with
    | nil => simp [hammingDistance]
    | cons y ys =>
      unfold hammingDistance
      have h1 := countOnes_le_eight (x ^^^ y)
      have h2 := ih ys
      simp only [List.length_cons]
      omega

/-- C9: for equal-length byte strings, Hamming distance is symmetric
and zero on identical hashes; for the 32-byte hashes of the 16×16
gradient hasher it is at most 256. -/
theorem c9_hash_distance_laws (a b : List Nat)
    (ha : ∀ x ∈ a, x < 256) (hb : ∀ x ∈ b, x < 256)
    (hlen : a.length = b.length) :
    hammingDistance a b = hammingDistance b a ∧
    hammingDistance a a = 0 ∧
    (a.length = 32 → hammingDistance a b ≤ 256) := by
  refine ⟨hammingDistance_comm a b, hammingDistance_self a, fun h32 => ?_⟩
  have := hammingDistance_le a b
  rw [h32] at this
  omega

/-- C9 witness: the all-ones and all-zeros 32-byte hashes. -/
theorem c9_hash_distance_laws_witness :
    hammingDistance (List.replicate 32 255) (List.replicate 32 0) =
      hammingDistance (List.replicate 32 0) (List.replicate 32 255) ∧
    hammingDistance (List.replicate 32 255) (List.replicate 32 255) = 0 ∧
    hammingDistance (List.replicate 32 255) (List.replicate 32 0) ≤ 256 := by
  have h := c9_hash_distance_laws (List.replicate 32 255) (List.replicate 32 0)
    (by decide) (by decide) (by decide)
  exact ⟨h.1, h.2.1, h.2.2 (by decide)⟩

/-- Each `delete_files` loop iteration either leaves the deleted list
unchanged or appends exactly the processed path. -/
theorem deleteStep_deleted_cases (fs : FsView) (dirs : List (List Char))
    (acc : List (List Char) × List (List Char)) (q : List Char) :
    (deleteStep fs dirs acc q).1 = acc.1 ∨
    (deleteStep fs dirs acc q).1 = acc.1 ++ [q] := by
  unfold deleteStep
  split
  · right; rfl
  · split
    · split
      · right; rfl
      · left; rfl
    · split
      · left; rfl
      · split
        · right; rfl
        · left; rfl

/-- Each `delete_files` loop iteration either leaves the failed list
unchanged or appends exactly the processed path. -/
theorem deleteStep_failed_cases (fs : FsView) (dirs : List (List Char))
    (acc : List (List Char) × List (List Char)) (q : List Char) :
    (deleteStep fs dirs acc q).2 = acc.2 ∨
    (deleteStep fs dirs acc q).2 = acc.2 ++ [q] := by
  unfold deleteStep
  split
  · left; rfl
  · split
    · split
      · left; rfl
      · right; rfl
    · split
      · right; rfl
      · split
        · left; rfl
        · right; rfl

/-- A path that exists and canonicalises outside every watch directory
is appended to the failed list by its iteration. -/
theorem deleteStep_outside (fs : FsView) (dirs : List (List Char))
    (acc : List (List Char) × List (List Char)) (p : List Char)
    (hex : fs.fileExists p = true) (cp : List (List Char))
    (hcp : fs.canonical p = some cp) (hout : allowedIn fs dirs cp = false) :
    deleteStep fs dirs acc p = (acc.1, acc.2 ++ [p]) := by
  unfold deleteStep
  rw [hex, hcp]
  simp [hout]

/-- Entries already in the failed accumulator survive the rest of the
fold. -/
theorem foldl_deleteStep_failed_mono (fs : FsView) (dirs : List (List Char))
    (ps : List (List Char)) :
    ∀ acc x, x ∈ acc.2 → x ∈ (ps.foldl (deleteStep fs dirs) acc).2 := by
  induction ps with
  | nil => intro acc x hx; exact hx
  | cons q ps ih =>
    intro acc x hx
    rw [List.foldl_cons]
    refine ih _ x ?_
    rcases deleteStep_failed_cases fs dirs acc q with h | h <;> rw [h]
    · exact hx
    · exact List.mem_append_left _ hx

/-- If a path of the input exists and canonicalises outside every
watch directory, the fold puts it into the failed list. -/
theorem foldl_deleteStep_failed (fs : FsView) (dirs : List (List Char))
    (p : List Char) (hex : fs.fileExists p = true) (cp : List (List Char))
    (hcp : fs.canonical p = some cp) (hout : allowedIn fs dirs cp = false)
    (ps : List (List Char)) :
    ∀ acc, p ∈ ps → p ∈ (ps.foldl (deleteStep fs dirs) acc).2 := by
  induction ps with
  | nil => intro acc hp; cases hp
  | cons q ps ih =>
    intro acc hp
    rw [List.foldl_cons]
    by_cases hq : q = p
    · subst hq
      rw [deleteStep_outside fs dirs acc q hex cp hcp hout]
      exact foldl_deleteStep_failed_mono fs dirs ps _ q
        (List.mem_append_right _ (List.mem_singleton.mpr rfl))
    · have hp2 : p ∈ ps := by
        cases hp with
        | head => exact absurd rfl hq
        | tail _ h => exact h
      exact ih _ hp2

/-- A path that exists and canonicalises outside every watch directory
never enters the deleted list. -/
theorem foldl_deleteStep_not_deleted (fs : FsView) (dirs : List (List Char))
    (p : List Char) (hex : fs.fileExists p = true) (cp : List (List Char))
    (hcp : fs.canonical p = some cp) (hout : allowedIn fs dirs cp = false)
    (ps : List (List Char)) :
    ∀ acc, p ∉ acc.1 → p ∉ (ps.foldl (deleteStep fs dirs) acc).1 := by
  induction ps with
  | nil => intro acc hp; exact hp
  | cons q ps ih =>
    intro acc hp
    rw [List.foldl_cons]
    refine ih _ ?_
    by_cases hq : q = p
    · subst hq
      rw [deleteStep_outside fs dirs acc q hex cp hcp hout]
      exact hp
    · rcases deleteStep_deleted_cases fs dirs acc q with h | h <;> rw [h]
      · exact hp
      · intro hmem
        rcases List.mem_append.mp hmem with h2 | h2
        · exact hp h2
        · exact hq (List.mem_singleton.mp h2).symm

/-- C7 counterexample: the claim sends every path that does not
canonicalise into a watch directory to `failed`, but the code treats a
NONEXISTENT path as already deleted: it lands in `deleted` (and its
index row is removed), even though it is outside every watch
directory. -/
theorem c7_delete_files_counterexample :
    deleteFiles
        { fileExists := fun _ => false, canonical := fun _ => none,
          removeRawOk := fun _ => false, removeCanonOk := fun _ => false }
        [("/home/u/Desktop".toList)] [("/elsewhere/x.png".toList)] =
      .ok ([("/elsewhere/x.png".toList)], []) ∧
    (fun (_ : List Char) => (none : Option (List (List Char)))) ("/elsewhere/x.png".toList)
      = none := by
  exact ⟨rfl, rfl⟩

/-- C7 amended: `delete_files` errors on an empty path list, and every
input path that EXISTS and canonicalises to a location outside all
watch directories is placed in the failed list and never in the
deleted list.  (Nonexistent paths are reported as deleted without
touching the disk, and existing paths whose canonicalisation fails are
deleted directly when the direct removal succeeds.) -/
theorem c7_delete_files_amended (fs : FsView) (dirs paths : List (List Char))
    (p : List Char) (hp : p ∈ paths) (hex : fs.fileExists p = true)
    (cp : List (List Char)) (hcp : fs.canonical p = some cp)
    (hout : allowedIn fs dirs cp = false) :
    deleteFiles fs dirs [] = .error "No files selected for deletion" ∧
    ∀ del fail, deleteFiles fs dirs paths = .ok (del, fail) →
      p ∈ fail ∧ p ∉ del := by
  constructor
  · rfl
  · intro del fail hok
    unfold deleteFiles at hok
    by_cases hpe : paths.isEmpty
    · rw [if_pos hpe] at hok; cases hok
    · rw [if_neg hpe] at hok
      by_cases hde : dirs.isEmpty
      · rw [if_pos hde] at hok; cases hok
      · rw [if_neg hde] at hok
        have heq : paths.foldl (deleteStep fs dirs) ([], []) = (del, fail) :=
          Except.ok.inj hok
        constructor
        · have := foldl_deleteStep_failed fs dirs p hex cp hcp hout paths ([], []) hp
          rw [heq] at this
          exact this
        · have := foldl_deleteStep_not_deleted fs dirs p hex cp hcp hout paths
            ([], []) (by simp)
          rw [heq] at this
          exact this

/-- C7 amended, witness: a concrete existing file outside the watch
directory goes to `failed`. -/
theorem c7_delete_files_amended_witness :
    ∃ del fail,
      deleteFiles
          { fileExists := fun q => decide (q = ("/e/x.png".toList)),
            canonical := fun q =>
              if q = ("/e/x.png".toList) then some [("e".toList), ("x.png".toList)]
              else if q = ("/home/u/Desktop".toList) then
                some [("home".toList), ("u".toList), ("Desktop".toList)]
              else none,
            removeRawOk := fun _ => true, removeCanonOk := fun _ => true }
          [("/home/u/Desktop".toList)] [("/e/x.png".toList)] = .ok (del, fail) ∧
      ("/e/x.png".toList) ∈ fail ∧ ("/e/x.png".toList) ∉ del := by
  refine ⟨[], [("/e/x.png".toList)], rfl, ?_⟩
  exact (c7_delete_files_amended
    { fileExists := fun q => decide (q = ("/e/x.png".toList)),
      canonical := fun q =>
        if q = ("/e/x.png".toList) then some [("e".toList), ("x.png".toList)]
        else if q = ("/home/u/Desktop".toList) then
          some [("home".toList), ("u".toList), ("Desktop".toList)]
        else none,
      removeRawOk := fun _ => true, removeCanonOk := fun _ => true }
    [("/home/u/Desktop".toList)] [("/e/x.png".toList)] ("/e/x.png".toList)
    (List.mem_singleton.mpr rfl) (by decide)
    [("e".toList), ("x.png".toList)] (by decide) (by decide)).2 _ _ rfl

/-! ### C10: slugify postconditions -/

/-- A character admissible in a slug: lowercase ASCII letter, ASCII
digit, or dash. -/
def goodSlugCh (c : Char) : Bool := isLowerCh c || isDigitCh c || (c = '-')

/-- No two adjacent dashes (the formal reading of "runs collapse to a
single dash"). -/
def noDD : List Char → Bool
  | [] => true
  | [_] => true
  | a :: b :: rest => !((a = '-') && (b = '-')) && noDD (b :: rest)

/-- Char order agrees with the scalar value order. -/
theorem char_le_iff_toNat (a b : Char) : a ≤ b ↔ a.toNat ≤ b.toNat := by
  rw [Char.le_def, UInt32.le_def, BitVec.le_def]
  exact Iff.rfl

/-- `Char.ofNat` round-trips on valid (< 0xd800) scalar values. -/
theorem toNat_ofNat_valid (n : Nat) (h : n < 55296) : (Char.ofNat n).toNat = n := by
  have hvalid : n.isValidChar := by
    unfold Nat.isValidChar
    left
    exact h
  rw [Char.ofNat, dif_pos hvalid]
  rfl

/-- ASCII-lowercasing an alphanumeric yields a lowercase letter or a
digit. -/
theorem toAsciiLower_good (c : Char) (h : isAlnumCh c = true) :
    (isLowerCh (toAsciiLowerCh c) || isDigitCh (toAsciiLowerCh c)) = true := by
  by_cases hu : isUpperCh c = true
  · have h1 : 'A' ≤ c ∧ c ≤ 'Z' := by
      have := hu
      unfold isUpperCh at this
      simpa using this
    have hn1 : 65 ≤ c.toNat := (char_le_iff_toNat 'A' c).mp h1.1
    have hn2 : c.toNat ≤ 90 := (char_le_iff_toNat c 'Z').mp h1.2
    have hval : (Char.ofNat (c.toNat + 32)).toNat = c.toNat + 32 :=
      toNat_ofNat_valid _ (by omega)
    have hlow : isLowerCh (Char.ofNat (c.toNat + 32)) = true := by
      unfold isLowerCh
      simp only [Bool.and_eq_true, decide_eq_true_eq]
      constructor
      · rw [char_le_iff_toNat, hval]
        change 97 ≤ c.toNat + 32
        omega
      · rw [char_le_iff_toNat, hval]
        change c.toNat + 32 ≤ 122
        omega
    unfold toAsciiLowerCh toLowerCh
    rw [hu]
    simp [hlow]
  · have hlo : (isLowerCh c || isDigitCh c) = true := by
      unfold isAlnumCh isAlphaCh at h
      rcases Bool.or_eq_true_iff.mp h with h2 | h2
      · rcases Bool.or_eq_true_iff.mp h2 with h3 | h3
        · simp [h3]
        · exact absurd h3 hu
      · simp [h2]
    unfold toAsciiLowerCh toLowerCh
    rw [Bool.eq_false_iff.mpr hu]
    simpa using hlo

/-- A lowercase letter or digit is not a dash. -/
theorem good_not_dash (c : Char) (h : (isLowerCh c || isDigitCh c) = true) :
    c ≠ '-' := by
  intro he
  subst he
  simp [isLowerCh, isDigitCh] at h

/-- The loop invariant of `slugify_text`: only admissible characters,
no leading dash, no double dash, and `last_dash` tracks whether the
output currently ends in a dash. -/
def SlugInv (out : List Char) (ld : Bool) : Prop :=
  (∀ c ∈ out, goodSlugCh c = true) ∧
  out.head? ≠ some '-' ∧
  noDD out = true ∧
  (ld = true → out.getLast? = some '-') ∧
  (ld = false → out = [] ∨
    ∃ c, out.getLast? = some c ∧ (isLowerCh c || isDigitCh c) = true)

/-- Appending a character preserves `noDD` when the junction is not a
double dash. -/
theorem noDD_append (out : List Char) (c : Char) (hN : noDD out = true)
    (hj : ∀ d, out.getLast? = some d → ¬(d = '-' ∧ c = '-')) :
    noDD (out ++ [c]) = true := by
  induction out with
  | nil => rfl
  | cons a rest ih =>
    cases rest with
    | nil =>
      show noDD [a, c] = true
      have := hj a rfl
      by_cases ha : a = '-'
      · by_cases hc : c = '-'
        · exact absurd ⟨ha, hc⟩ this
        · simp [noDD, ha, hc]
      · simp [noDD, ha]
    | cons b rest2 =>
      have hN2 : noDD (b :: rest2) = true := by
        have := hN
        unfold noDD at this
        exact (Bool.and_eq_true_iff.mp this).2
      have hhd : (!((a = '-') && (b = '-'))) = true := by
        have := hN
        unfold noDD at this
        exact (Bool.and_eq_true_iff.mp this).1
      have hj2 : ∀ d, (b :: rest2).getLast? = some d → ¬(d = '-' ∧ c = '-') := by
        intro d hd
        exact hj d (by rw [List.getLast?_cons_cons]; exact hd)
      have := ih hN2 hj2
      show noDD (a :: b :: (rest2 ++ [c])) = true
      unfold noDD
      rw [Bool.and_eq_true_iff]
      exact ⟨hhd, this⟩

/-- `noDD` restricts to the prefix before a final element. -/
theorem noDD_of_concat (ys : List Char) (c : Char)
    (h : noDD (ys ++ [c]) = true) : noDD ys = true := by
  induction ys with
  | nil => rfl
  | cons a rest ih =>
    cases rest with
    | nil => rfl
    | cons b rest2 =>
      have h2 : noDD (a :: b :: (rest2 ++ [c])) = true := h
      unfold noDD at h2
      rcases Bool.and_eq_true_iff.mp h2 with ⟨hhd, htl⟩
      have := ih htl
      show noDD (a :: b :: rest2) = true
      unfold noDD
      rw [Bool.and_eq_true_iff]
      exact ⟨hhd, this⟩

/-- In a `noDD` list ending in some `c`, the element before `c` is not
a dash when `c` is a dash. -/
theorem noDD_concat_last (ys : List Char) (c : Char)
    (h : noDD (ys ++ [c]) = true) (d : Char) (hd : ys.getLast? = some d) :
    ¬(d = '-' ∧ c = '-') := by
  induction ys with
  | nil => cases hd
  | cons a rest ih =>
    cases rest with
    | nil =>
      have hda : d = a := by
        have := hd
        simp at this
        exact this.symm
      subst hda
      have h2 : noDD [d, c] = true := h
      unfold noDD at h2
      rcases Bool.and_eq_true_iff.mp h2 with ⟨hhd, _⟩
      intro hcon
      rw [hcon.1, hcon.2] at hhd
      simp at hhd
    | cons b rest2 =>
      have h2 : noDD (a :: b :: (rest2 ++ [c])) = true := h
      unfold noDD at h2
      rcases Bool.and_eq_true_iff.mp h2 with ⟨_, htl⟩
      exact ih htl (by rw [List.getLast?_cons_cons] at hd; exact hd)

/-- `head?` of a nonempty list survives appending. -/
theorem head?_append_single (out : List Char) (c : Char) (h : out ≠ []) :
    (out ++ [c]).head? = out.head? := by
  cases out with
  | nil => exact absurd rfl h
  | cons a rest => rfl

/-- `slugStep` preserves the loop invariant. -/
theorem slugStep_inv (c : Char) (out : List Char) (ld : Bool)
    (h : SlugInv out ld) : SlugInv (slugStep c out ld).1 (slugStep c out ld).2 := by
  obtain ⟨hchars, hhead, hnodd, hld1, hld0⟩ := h
  unfold slugStep
  by_cases hA : isAlnumCh c = true
  · rw [if_pos hA]
    have hgood := toAsciiLower_good c hA
    have hnd := good_not_dash _ hgood
    refine ⟨?_, ?_, ?_, ?_, ?_⟩
    · intro x hx
      rcases List.mem_append.mp hx with hx | hx
      · exact hchars x hx
      · rw [List.mem_singleton.mp hx]
        unfold goodSlugCh
        rcases Bool.or_eq_true_iff.mp hgood with h2 | h2 <;> simp [h2]
    · cases out with
      | nil =>
        simp only [List.nil_append, List.head?_cons]
        intro he
        exact hnd (Option.some.inj he)
      | cons a rest =>
        rw [head?_append_single _ _ (by simp)]
        exact hhead
    · refine noDD_append _ _ hnodd ?_
      intro d _ hc
      exact hnd hc.2
    · intro hcon; cases hcon
    · intro _
      right
      exact ⟨toAsciiLowerCh c, by simp [List.getLast?_concat], hgood⟩
  · rw [if_neg hA]
    by_cases hS : (isAsciiWsCh c || (c = '-') || (c = '_')) = true
    · rw [if_pos hS]
      by_cases hP : (!ld && !out.isEmpty) = true
      · rw [if_pos hP]
        have hne : out ≠ [] := by
          intro he
          rw [he] at hP
          simp at hP
        have hldf : ld = false := by
          rcases Bool.and_eq_true_iff.mp hP with ⟨h1, _⟩
          simpa using h1
        have hlast : ∃ d, out.getLast? = some d ∧ (isLowerCh d || isDigitCh d) = true := by
          rcases hld0 hldf with he | hgl
          · exact absurd he hne
          · exact hgl
        refine ⟨?_, ?_, ?_, ?_, ?_⟩
        · intro x hx
          rcases List.mem_append.mp hx with hx | hx
          · exact hchars x hx
          · rw [List.mem_singleton.mp hx]
            unfold goodSlugCh
            simp
        · rw [head?_append_single _ _ hne]
          exact hhead
        · refine noDD_append _ _ hnodd ?_
          intro d hd hc
          obtain ⟨d2, hd2, hgood2⟩ := hlast
          rw [hd] at hd2
          have : d = d2 := Option.some.inj hd2
          exact good_not_dash d2 hgood2 (this ▸ hc.1)
        · intro _
          simp [List.getLast?_concat]
        · intro hcon; cases hcon
      · rw [if_neg hP]
        exact ⟨hchars, hhead, hnodd, hld1, hld0⟩
    · rw [if_neg hS]
      exact ⟨hchars, hhead, hnodd, hld1, hld0⟩

/-- `slugStep` grows the output by at most one character. -/
theorem slugStep_length (c : Char) (out : List Char) (ld : Bool) :
    (slugStep c out ld).1.length ≤ out.length + 1 := by
  unfold slugStep
  by_cases hA : isAlnumCh c = true
  · rw [if_pos hA]; simp
  · rw [if_neg hA]
    by_cases hS : (isAsciiWsCh c || (c = '-') || (c = '_')) = true
    · rw [if_pos hS]
      by_cases hP : (!ld && !out.isEmpty) = true
      · rw [if_pos hP]; simp
      · rw [if_neg hP]
        show out.length ≤ out.length + 1
        omega
    · rw [if_neg hS]
      show out.length ≤ out.length + 1
      omega

/-- The loop maintains the list components of the invariant. -/
theorem slugLoop_inv (t : List Char) :
    ∀ out ld, SlugInv out ld →
      (∀ c ∈ slugLoop t out ld, goodSlugCh c = true) ∧
      (slugLoop t out ld).head? ≠ some '-' ∧
      noDD (slugLoop t out ld) = true := by
  induction t with
  | nil =>
    intro out ld h
    exact ⟨h.1, h.2.1, h.2.2.1⟩
  | cons c cs ih =>
    intro out ld h
    have h2 := slugStep_inv c out ld h
    unfold slugLoop
    by_cases hl : 60 ≤ (slugStep c out ld).1.length
    · rw [if_pos hl]
      exact ⟨h2.1, h2.2.1, h2.2.2.1⟩
    · rw [if_neg hl]
      exact ih _ _ h2

/-- The loop output has at most 60 characters. -/
theorem slugLoop_length (t : List Char) :
    ∀ out ld, out.length ≤ 59 → (slugLoop t out ld).length ≤ 60 := by
  induction t with
  | nil =>
    intro out ld h
    show out.length ≤ 60
    omega
  | cons c cs ih =>
    intro out ld h
    have hstep := slugStep_length c out ld
    unfold slugLoop
    by_cases hl : 60 ≤ (slugStep c out ld).1.length
    · rw [if_pos hl]
      omega
    · rw [if_neg hl]
      exact ih _ _ (by omega)

/-- C10 counterexample: the claim makes the output equal "screenshot"
EXACTLY when the filtered result is empty, but the input "screenshot"
slugifies to "screenshot" with a nonempty filtered result. -/
theorem c10_slugify_counterexample :
    slugifyText ("screenshot".toList) = "screenshot".toList ∧
    slugCore ("screenshot".toList) ≠ [] := by
  exact ⟨by decide, by decide⟩

/-- C10 amended: for every input, `slugify_text` returns a non-empty
string of at most 60 characters over lowercase ASCII alphanumerics and
dash, with no leading or trailing dash and no two adjacent dashes
(runs of whitespace/`-`/`_` collapse to one dash), and the output is
"screenshot" WHENEVER the filtered result would otherwise be empty
(though it may also equal "screenshot" for inputs that slugify to
it). -/
theorem c10_slugify_postconditions (t : List Char) :
    slugifyText t ≠ [] ∧
    (slugifyText t).length ≤ 60 ∧
    (∀ c ∈ slugifyText t, goodSlugCh c = true) ∧
    (slugifyText t).head? ≠ some '-' ∧
    (slugifyText t).getLast? ≠ some '-' ∧
    noDD (slugifyText t) = true ∧
    (slugCore t = [] → slugifyText t = "screenshot".toList) := by
  have hbase : SlugInv [] false := by
    refine ⟨?_, ?_, ?_, ?_, ?_⟩
    · intro c hc; cases hc
    · simp
    · rfl
    · intro hcon; cases hcon
    · intro _; exact Or.inl rfl
  have hinv := slugLoop_inv t [] false hbase
  have hlen : (slugLoop t [] false).length ≤ 60 :=
    slugLoop_length t [] false (by simp)
  by_cases hcore : slugCore t = []
  · rw [slugifyText, if_pos (by rw [hcore]; rfl)]
    refine ⟨by decide, by decide, by decide, by decide, by decide, by decide,
      fun _ => rfl⟩
  · rw [slugifyText, if_neg (by simp [hcore])]
    obtain ⟨hchars, hhead, hnodd⟩ := hinv
    by_cases hdash : (slugLoop t [] false).getLast? = some '-'
    · have hrne : slugLoop t [] false ≠ [] := by
        intro he
        rw [he] at hdash
        cases hdash
      have hglast : (slugLoop t [] false).getLast hrne = '-' := by
        have hq := List.getLast?_eq_getLast (slugLoop t [] false) hrne
        rw [hdash] at hq
        exact (Option.some.inj hq).symm
      have hsplit : (slugLoop t [] false).dropLast ++ ['-'] = slugLoop t [] false := by
        have := List.dropLast_append_getLast hrne
        rw [hglast] at this
        exact this
      have hceq : slugCore t = (slugLoop t [] false).dropLast := by
        unfold slugCore
        rw [if_pos hdash]
      have hysne : (slugLoop t [] false).dropLast ≠ [] := by
        intro he
        rw [hceq, he] at hcore
        exact hcore rfl
      have hnodd2 : noDD ((slugLoop t [] false).dropLast ++ ['-']) = true := by
        rw [hsplit]
        exact hnodd
      rw [hceq]
      refine ⟨hysne, ?_, ?_, ?_, ?_, ?_, ?_⟩
      · have : (slugLoop t [] false).dropLast.length + 1 =
            (slugLoop t [] false).length := by
          conv_rhs => rw [← hsplit]
          simp
        omega
      · intro c hc
        refine hchars c ?_
        rw [← hsplit]
        exact List.mem_append_left _ hc
      · rw [← head?_append_single _ '-' hysne, hsplit]
        exact hhead
      · intro hcon
        exact (noDD_concat_last _ '-' hnodd2 '-' hcon) ⟨rfl, rfl⟩
      · exact noDD_of_concat _ _ hnodd2
      · intro hcon
        exact absurd hcon hysne
    · have hceq : slugCore t = slugLoop t [] false := by
        unfold slugCore
        rw [if_neg hdash]
      rw [hceq]
      have hrne : slugLoop t [] false ≠ [] := by
        intro he
        rw [hceq, he] at hcore
        exact hcore rfl
      exact ⟨hrne, hlen, hchars, hhead, hdash, hnodd,
        fun hcon => absurd hcon hrne⟩


/-! ### C8: whitespace-only rows under `reprocess_all_tags`

Infrastructure: on a whitespace-only text every classifier signal is
false, so `detect_collections` returns `[]` while the upsert path
forces `["Images"]`. -/

/-- Does the needle contain a non-whitespace character? -/
def hasNonWs (n : List Char) : Bool := n.any (fun c => !isWsCh c)

/-- A needle with a non-whitespace character is never a prefix of a
whitespace-only list. -/
theorem startsWithL_false_of_ws (n : List Char) (t : List Char)
    (hws : ∀ c ∈ t, isWsCh c = true) (hn : hasNonWs n = true) :
    startsWithL n t = false := by
  induction n generalizing t with
  | nil => cases hn
  | cons a n2 ih =>
    cases t with
    | nil => rfl
    | cons b t2 =>
      show (decide (a = b) && startsWithL n2 t2) = false
      by_cases hab : a = b
      · have hbws : isWsCh b = true := hws b (by simp)
        have haws : isWsCh a = true := by rw [hab]; exact hbws
        have hn2 : hasNonWs n2 = true := by
          unfold hasNonWs at hn ⊢
          rcases List.any_eq_true.mp hn with ⟨c, hc, hcw⟩
          cases hc with
          | head =>
            rw [haws] at hcw
            cases hcw
          | tail _ hc2 => exact List.any_eq_true.mpr ⟨c, hc2, hcw⟩
        rw [ih t2 (fun c hc => hws c (List.mem_cons_of_mem b hc)) hn2]
        simp
      · simp [hab]

/-- A needle with a non-whitespace character does not occur in a
whitespace-only list. -/
theorem containsL_false_of_ws (t : List Char) (n : List Char)
    (hws : ∀ c ∈ t, isWsCh c = true) (hn : hasNonWs n = true) :
    containsL t n = false := by
  induction t with
  | nil =>
    unfold containsL
    cases n with
    | nil => cases hn
    | cons a n2 => rfl
  | cons b t2 ih =>
    show (startsWithL n (b :: t2) || containsL t2 n) = false
    rw [startsWithL_false_of_ws n (b :: t2) hws hn,
      ih (fun c hc => hws c (List.mem_cons_of_mem b hc))]
    rfl

/-- None of a batch of needles, each with a non-whitespace character,
occurs in a whitespace-only list. -/
theorem needles_any_false_of_ws (ns : List (List Char)) (t : List Char)
    (hws : ∀ c ∈ t, isWsCh c = true) (hn : ∀ n ∈ ns, hasNonWs n = true) :
    (ns.any (fun n => containsL t n)) = false := by
  induction ns with
  | nil => rfl
  | cons n ns2 ih =>
    show (containsL t n || ns2.any (fun m => containsL t m)) = false
    rw [containsL_false_of_ws t n hws (hn n (by simp))]
    rw [ih (fun m hm => hn m (List.mem_cons_of_mem n hm))]
    rfl

/-- Lowercasing preserves whitespace-ness. -/
theorem toLowerL_ws (t : List Char) (hws : ∀ c ∈ t, isWsCh c = true) :
    ∀ c ∈ toLowerL t, isWsCh c = true := by
  intro c hc
  unfold toLowerL at hc
  rcases List.mem_map.mp hc with ⟨d, hd, hdc⟩
  have hdw := hws d hd
  have : toLowerCh d = d := by
    unfold toLowerCh
    have hup : isUpperCh d = false := by
      unfold isWsCh at hdw
      rcases Bool.or_eq_true_iff.mp hdw with h1 | h1
      · rcases Bool.or_eq_true_iff.mp h1 with h2 | h2
        · rcases Bool.or_eq_true_iff.mp h2 with h3 | h3
          · rw [decide_eq_true_eq.mp h3]; rfl
          · rw [decide_eq_true_eq.mp h3]; rfl
        · rw [decide_eq_true_eq.mp h2]; rfl
      · rw [decide_eq_true_eq.mp h1]; rfl
    rw [hup]
    rfl
  rw [← hdc, this]
  exact hdw

/-- A whitespace-only list contains no occurrences of a non-whitespace
character. -/
theorem countCharIn_zero_of_ws (t : List Char) (c : Char)
    (hws : ∀ d ∈ t, isWsCh d = true) (hc : isWsCh c = false) :
    countCharIn t c = 0 := by
  unfold countCharIn
  rw [List.countP_eq_zero]
  intro d hd
  have hdw := hws d hd
  simp only [decide_eq_true_eq]
  intro he
  rw [he, hc] at hdw
  cases hdw

/-- `split_whitespace` of a whitespace-only list is empty. -/
theorem splitWsAux_nil_of_ws (t : List Char) (hws : ∀ c ∈ t, isWsCh c = true) :
    splitWsAux t [] = [] := by
  induction t with
  | nil => rfl
  | cons c t2 ih =>
    unfold splitWsAux
    rw [hws c (by simp)]
    simp only [if_pos rfl]
    exact ih (fun d hd => hws d (List.mem_cons_of_mem c hd))

/-- `split_whitespace` of a whitespace-only list is empty. -/
theorem splitWs_nil_of_ws (t : List Char) (hws : ∀ c ∈ t, isWsCh c = true) :
    splitWs t = [] := splitWsAux_nil_of_ws t hws

/-- `trim` of a whitespace-only list is empty. -/
theorem trimL_nil_of_ws (t : List Char) (hws : ∀ c ∈ t, isWsCh c = true) :
    trimL t = [] := by
  unfold trimL
  have h1 : t.dropWhile isWsCh = [] := by
    rw [List.dropWhile_eq_nil_iff]
    exact hws
  rw [h1]
  rfl

/-- Every piece of `splitOnCh` draws its characters from the input. -/
theorem splitOnCh_chars (t : List Char) (sep : Char) :
    ∀ p ∈ splitOnCh t sep, ∀ c ∈ p, c ∈ t := by
  induction t with
  | nil =>
    intro p hp c hc
    unfold splitOnCh at hp
    rw [List.mem_singleton.mp hp] at hc
    cases hc
  | cons b t2 ih =>
    intro p hp c hc
    unfold splitOnCh at hp
    by_cases hb : b = sep
    · rw [if_pos hb] at hp
      cases hp with
      | head => cases hc
      | tail _ hp2 => exact List.mem_cons_of_mem b (ih p hp2 c hc)
    · rw [if_neg hb] at hp
      cases hq : splitOnCh t2 sep with
      | nil =>
        rw [hq] at hp
        rw [List.mem_singleton.mp hp] at hc
        rw [List.mem_singleton.mp hc]
        exact List.mem_cons_self b t2
      | cons q qs =>
        rw [hq] at hp
        cases hp with
        | head =>
          cases hc with
          | head => exact List.mem_cons_self b t2
          | tail _ hc2 =>
            refine List.mem_cons_of_mem b (ih q ?_ c hc2)
            rw [hq]
            exact List.mem_cons_self q qs
        | tail _ hp2 =>
          refine List.mem_cons_of_mem b (ih p ?_ c hc)
          rw [hq]
          exact List.mem_cons_of_mem q hp2

/-- Every line of `linesOf` draws its characters from the input. -/
theorem linesOf_chars (t : List Char) :
    ∀ p ∈ linesOf t, ∀ c ∈ p, c ∈ t := by
  intro p hp c hc
  unfold linesOf at hp
  rcases List.mem_map.mp hp with ⟨q, hq, hqp⟩
  have hqraw : q ∈ splitOnCh t '\n' := by
    by_cases hcond : (splitOnCh t '\n').getLast? = some [] ∧ t ≠ []
    · rw [if_pos hcond] at hq
      exact (List.dropLast_prefix _).subset hq
    · rw [if_neg hcond] at hq
      exact hq
  have hcq : c ∈ q := by
    by_cases hcr : q.getLast? = some '\r'
    · rw [← hqp] at hc
      rw [if_pos hcr] at hc
      exact (List.dropLast_prefix q).subset hc
    · rw [← hqp] at hc
      rw [if_neg hcr] at hc
      exact hc
  exact splitOnCh_chars t '\n' q hqraw c hcq

/-- On a whitespace-only text there are no trimmed non-empty lines. -/
theorem msgLines_nil_of_ws (t : List Char) (hws : ∀ c ∈ t, isWsCh c = true) :
    msgLines t = [] := by
  unfold msgLines
  rw [List.filter_eq_nil_iff]
  intro p hp
  rcases List.mem_map.mp hp with ⟨q, hq, hqp⟩
  have hqws : ∀ c ∈ q, isWsCh c = true := fun c hc => hws c (linesOf_chars t q hq c hc)
  rw [← hqp, trimL_nil_of_ws q hqws]
  simp

/-- A conservative syntactic witness that every successful match of
the pattern consumes at least one character satisfying `q`. -/
def MustConsume (q : Char → Bool) : RE → Prop
  | .eps => False
  | .cls p => ∀ c, p c = true → q c = true
  | .lit l => ∃ c ∈ l, q c = true
  | .seq a b => MustConsume q a ∨ MustConsume q b
  | .alt a b => MustConsume q a ∧ MustConsume q b
  | .opt _ => False
  | .starCl _ => False
  | .wb => False

/-- A successful prefix test covers its needle's characters. -/
theorem mem_of_startsWithL (n t : List Char) (h : startsWithL n t = true) :
    ∀ c ∈ n, c ∈ t := by
  induction n generalizing t with
  | nil => intro c hc; cases hc
  | cons a n2 ih =>
    cases t with
    | nil => cases h
    | cons b t2 =>
      have h2 : decide (a = b) = true ∧ startsWithL n2 t2 = true := by
        have := h
        rw [show startsWithL (a :: n2) (b :: t2) =
          (decide (a = b) && startsWithL n2 t2) from rfl] at this
        exact Bool.and_eq_true_iff.mp this
      intro c hc
      cases hc with
      | head =>
        rw [decide_eq_true_eq.mp h2.1]
        exact List.mem_cons_self b t2
      | tail _ hc2 => exact List.mem_cons_of_mem b (ih t2 h2.2 c hc2)

/-- Every residue produced by the engine is a suffix of the input. -/
theorem matchRe_rem_suffix (r : RE) :
    ∀ prev s x, x ∈ matchRe r prev s → x.2.2 <:+ s := by
  induction r with
  | eps =>
    intro prev s x hx
    have hx2 := List.mem_singleton.mp hx
    subst hx2
    exact List.suffix_refl s
  | cls p =>
    intro prev s x hx
    cases s with
    | nil => cases hx
    | cons c rest =>
      by_cases hp : p c = true
      · simp only [matchRe, hp, if_true] at hx
        rw [List.mem_singleton.mp hx]
        exact List.suffix_cons c rest
      · simp only [matchRe, hp] at hx
        simp at hx
  | lit l =>
    intro prev s x hx
    unfold matchRe at hx
    by_cases hst : startsWithL l s = true
    · rw [if_pos hst] at hx
      rw [List.mem_singleton.mp hx]
      exact List.drop_suffix l.length s
    · rw [if_neg hst] at hx
      cases hx
  | seq a b iha ihb =>
    intro prev s x hx
    unfold matchRe at hx
    rcases List.mem_flatMap.mp hx with ⟨y, hy, hxy⟩
    rcases List.mem_map.mp hxy with ⟨z, hz, hzx⟩
    have h1 := iha prev s y hy
    have h2 := ihb y.2.1 y.2.2 z hz
    rw [← hzx]
    exact h2.trans h1
  | alt a b iha ihb =>
    intro prev s x hx
    unfold matchRe at hx
    rcases List.mem_append.mp hx with hx2 | hx2
    · exact iha prev s x hx2
    · exact ihb prev s x hx2
  | opt a iha =>
    intro prev s x hx
    unfold matchRe at hx
    rcases List.mem_append.mp hx with hx2 | hx2
    · exact iha prev s x hx2
    · have hx3 := List.mem_singleton.mp hx2
      subst hx3
      exact List.suffix_refl s
  | starCl p =>
    intro prev s x hx
    unfold matchRe at hx
    rcases List.mem_map.mp hx with ⟨k, _, hkx⟩
    rw [← hkx]
    exact List.drop_suffix k s
  | wb =>
    intro prev s x hx
    unfold matchRe at hx
    by_cases hB : boundaryAt prev s.head? = true
    · rw [if_pos hB] at hx
      have hx2 := List.mem_singleton.mp hx
      subst hx2
      exact List.suffix_refl s
    · rw [if_neg hB] at hx
      cases hx

/-- A pattern that must consume a `q`-character has no match on input
whose characters all refute `q`. -/
theorem matchRe_nil_of_mustConsume (q : Char → Bool) (r : RE)
    (h : MustConsume q r) :
    ∀ prev s, (∀ c ∈ s, q c = false) → matchRe r prev s = [] := by
  induction r with
  | eps => cases h
  | cls p =>
    intro prev s hs
    cases s with
    | nil => rfl
    | cons c rest =>
      have hq : q c = false := hs c (by simp)
      have hp : p c = false := by
        by_cases hp2 : p c = true
        · have := h c hp2
          rw [hq] at this
          cases this
        · exact Bool.eq_false_iff.mpr hp2
      simp [matchRe, hp]
  | lit l =>
    intro prev s hs
    unfold matchRe
    rcases h with ⟨c, hcl, hcq⟩
    by_cases hst : startsWithL l s = true
    · have := hs c (mem_of_startsWithL l s hst c hcl)
      rw [this] at hcq
      cases hcq
    · rw [if_neg hst]
  | seq a b iha ihb =>
    intro prev s hs
    unfold matchRe
    rcases h with ha | hb
    · rw [iha ha prev s hs]
      rfl
    · rw [List.flatMap_eq_nil_iff]
      intro y hy
      have hsuf := matchRe_rem_suffix a prev s y hy
      have : ∀ c ∈ y.2.2, q c = false := fun c hc => hs c (hsuf.subset hc)
      rw [ihb hb y.2.1 y.2.2 this]
      rfl
  | alt a b iha ihb =>
    intro prev s hs
    unfold matchRe
    rw [iha h.1 prev s hs, ihb h.2 prev s hs]
    rfl
  | opt a iha => cases h
  | starCl p => cases h
  | wb => cases h

/-- No match at any position of a `q`-free input. -/
theorem reIsMatchAux_false_of_mustConsume (q : Char → Bool) (r : RE)
    (h : MustConsume q r) :
    ∀ s prev, (∀ c ∈ s, q c = false) → reIsMatchAux r prev s = false := by
  intro s
  induction s with
  | nil =>
    intro prev hs
    unfold reIsMatchAux
    rw [matchRe_nil_of_mustConsume q r h prev [] hs]
    rfl
  | cons c rest ih =>
    intro prev hs
    unfold reIsMatchAux
    rw [matchRe_nil_of_mustConsume q r h prev (c :: rest) hs]
    rw [ih (some c) (fun d hd => hs d (List.mem_cons_of_mem c hd))]
    rfl

/-- `find_iter` finds nothing on a `q`-free input. -/
theorem findAllAux_nil_of_mustConsume (q : Char → Bool) (r : RE)
    (h : MustConsume q r) :
    ∀ fuel s prev, (∀ c ∈ s, q c = false) → findAllAux r fuel prev s = [] := by
  intro fuel
  induction fuel with
  | zero => intro s prev _; rfl
  | succ fuel ih =>
    intro s prev hs
    unfold findAllAux
    rw [matchRe_nil_of_mustConsume q r h prev s hs]
    cases s with
    | nil => rfl
    | cons c rest =>
      exact ih rest (some c) (fun d hd => hs d (List.mem_cons_of_mem c hd))

/-- `find_iter(..).count()` is zero on a `q`-free input. -/
theorem countMatchesRe_zero_of_mustConsume (q : Char → Bool) (r : RE)
    (h : MustConsume q r) (s : List Char) (hs : ∀ c ∈ s, q c = false) :
    countMatchesRe r s = 0 := by
  unfold countMatchesRe findAllRe
  rw [findAllAux_nil_of_mustConsume q r h (s.length + 1) s none hs]
  rfl

/-- A whitespace character is one of the four whitespace code points. -/
theorem ws_cases (c : Char) (h : isWsCh c = true) :
    c = ' ' ∨ c = '\t' ∨ c = '\n' ∨ c = '\r' := by
  unfold isWsCh at h
  rcases Bool.or_eq_true_iff.mp h with h1 | h1
  · rcases Bool.or_eq_true_iff.mp h1 with h2 | h2
    · rcases Bool.or_eq_true_iff.mp h2 with h3 | h3
      · exact Or.inl (decide_eq_true_eq.mp h3)
      · exact Or.inr (Or.inl (decide_eq_true_eq.mp h3))
    · exact Or.inr (Or.inr (Or.inl (decide_eq_true_eq.mp h2)))
  · exact Or.inr (Or.inr (Or.inr (decide_eq_true_eq.mp h1)))

/-- Digits are not whitespace. -/
theorem digit_nonWs : ∀ c, isDigitCh c = true → nonWsCls c = true := by
  intro c h
  by_cases hw : isWsCh c = true
  · rcases ws_cases c hw with h2 | h2 | h2 | h2 <;>
      (subst h2; exact absurd h (by decide))
  · unfold nonWsCls
    rw [Bool.eq_false_iff.mpr hw]
    rfl

/-- `time_pattern_12h` must consume a digit. -/
theorem mc_time12 : MustConsume nonWsCls time12RE :=
  Or.inl (Or.inl digit_nonWs)

/-- `time_pattern_24h` must consume a digit. -/
theorem mc_time24 : MustConsume nonWsCls time24RE :=
  Or.inr (Or.inl (Or.inl digit_nonWs))

/-- `hex_pattern` must consume `#`. -/
theorem mc_hex : MustConsume nonWsCls hexRE :=
  Or.inl ⟨'#', by decide, by decide⟩

/-- `price_pattern` must consume `$`. -/
theorem mc_price : MustConsume nonWsCls priceRE :=
  Or.inl ⟨'$', by decide, by decide⟩

/-- `url_pattern` must consume the literal `http`. -/
theorem mc_url : MustConsume nonWsCls urlRE :=
  Or.inl ⟨'h', by decide, by decide⟩

/-- On whitespace-only text every character refutes `[^\s]`. -/
theorem nonWs_false_of_ws (t : List Char) (hws : ∀ c ∈ t, isWsCh c = true) :
    ∀ c ∈ t, nonWsCls c = false := by
  intro c hc
  unfold nonWsCls
  rw [hws c hc]
  rfl

/-- No 12h timestamps in whitespace-only text. -/
theorem time12_zero_of_ws (t : List Char) (hws : ∀ c ∈ t, isWsCh c = true) :
    countMatchesRe time12RE t = 0 :=
  countMatchesRe_zero_of_mustConsume nonWsCls time12RE mc_time12 t
    (nonWs_false_of_ws t hws)

/-- No 24h timestamps in whitespace-only text. -/
theorem time24_zero_of_ws (t : List Char) (hws : ∀ c ∈ t, isWsCh c = true) :
    countMatchesRe time24RE t = 0 :=
  countMatchesRe_zero_of_mustConsume nonWsCls time24RE mc_time24 t
    (nonWs_false_of_ws t hws)

/-- No timestamp signal in whitespace-only text. -/
theorem hasAnyTimestamp_false_of_ws (t : List Char)
    (hws : ∀ c ∈ t, isWsCh c = true) : hasAnyTimestamp t = false := by
  unfold hasAnyTimestamp
  rw [time12_zero_of_ws t hws, time24_zero_of_ws t hws]
  rfl

/-- Message-bubble counts vanish on whitespace-only text. -/
theorem hasMessageBubbles_false_of_ws (t : List Char)
    (hws : ∀ c ∈ t, isWsCh c = true) : hasMessageBubbles t = false := by
  unfold hasMessageBubbles shortLinesCount namePrefixCount lineTimestampCount
  rw [msgLines_nil_of_ws t hws]
  rfl

/-- No message-app name occurs in whitespace-only text. -/
theorem hasMessageApps_false_of_ws (t : List Char)
    (hws : ∀ c ∈ t, isWsCh c = true) : hasMessageApps t = false := by
  unfold hasMessageApps
  exact needles_any_false_of_ws _ _ (toLowerL_ws t hws) (by decide)

/-- No read-receipt vocabulary occurs in whitespace-only text. -/
theorem hasReadReceipts_false_of_ws (t : List Char)
    (hws : ∀ c ∈ t, isWsCh c = true) : hasReadReceipts t = false := by
  have hlw := toLowerL_ws t hws
  simp only [hasReadReceipts]
  rw [containsL_false_of_ws _ _ hlw (by decide),
    containsL_false_of_ws _ _ hlw (by decide),
    containsL_false_of_ws _ _ hlw (by decide),
    containsL_false_of_ws _ _ hlw (by decide),
    containsL_false_of_ws _ _ hlw (by decide),
    containsL_false_of_ws _ _ hlw (by decide),
    containsL_false_of_ws _ _ hlw (by decide),
    containsL_false_of_ws _ _ hlw (by decide)]
  rfl

/-- No chat slang occurs in whitespace-only text. -/
theorem hasChatWords_false_of_ws (t : List Char)
    (hws : ∀ c ∈ t, isWsCh c = true) : hasChatWords t = false := by
  unfold hasChatWords
  exact needles_any_false_of_ws _ _ (toLowerL_ws t hws) (by decide)

/-- No question marks in whitespace-only text. -/
theorem hasQuestions_false_of_ws (t : List Char)
    (hws : ∀ c ∈ t, isWsCh c = true) : hasQuestions t = false := by
  unfold hasQuestions
  rw [countCharIn_zero_of_ws t '?' hws (by decide)]
  rfl

/-- No greetings occur in whitespace-only text. -/
theorem hasCasualGreetings_false_of_ws (t : List Char)
    (hws : ∀ c ∈ t, isWsCh c = true) : hasCasualGreetings t = false := by
  unfold hasCasualGreetings
  exact needles_any_false_of_ws _ _ (toLowerL_ws t hws) (by decide)

/-- No date headers occur in whitespace-only text. -/
theorem hasDateHeaders_false_of_ws (t : List Char)
    (hws : ∀ c ∈ t, isWsCh c = true) : hasDateHeaders t = false := by
  unfold hasDateHeaders
  exact needles_any_false_of_ws _ _ (toLowerL_ws t hws) (by decide)

/-- No colon-driven conversation indicator on whitespace-only text. -/
theorem hasConversationIndicators_false_of_ws (t : List Char)
    (hws : ∀ c ∈ t, isWsCh c = true) : hasConversationIndicators t = false := by
  unfold hasConversationIndicators
  rw [countCharIn_zero_of_ws t ':' hws (by decide)]
  rfl

/-- No text emoji occurs in whitespace-only text. -/
theorem hasEmojiLike_false_of_ws (t : List Char)
    (hws : ∀ c ∈ t, isWsCh c = true) : hasEmojiLike t = false := by
  unfold hasEmojiLike
  rw [containsL_false_of_ws _ _ hws (by decide),
    containsL_false_of_ws _ _ hws (by decide),
    containsL_false_of_ws _ _ hws (by decide),
    containsL_false_of_ws _ _ hws (by decide),
    containsL_false_of_ws _ _ hws (by decide),
    containsL_false_of_ws _ _ hws (by decide)]
  rfl

/-- The secondary Messages signal is off on whitespace-only text. -/
theorem msgSecondary_false_of_ws (t : List Char)
    (hws : ∀ c ∈ t, isWsCh c = true) : msgSecondary t = false := by
  unfold msgSecondary
  rw [hasAnyTimestamp_false_of_ws t hws, hasMessageApps_false_of_ws t hws,
    hasReadReceipts_false_of_ws t hws, hasChatWords_false_of_ws t hws,
    hasQuestions_false_of_ws t hws, hasCasualGreetings_false_of_ws t hws,
    hasDateHeaders_false_of_ws t hws, hasConversationIndicators_false_of_ws t hws,
    hasEmojiLike_false_of_ws t hws]
  rfl

/-- No code keyword occurs in whitespace-only text. -/
theorem hasCodeKeywords_false_of_ws (t : List Char)
    (hws : ∀ c ∈ t, isWsCh c = true) : hasCodeKeywords t = false := by
  unfold hasCodeKeywords
  exact needles_any_false_of_ws _ _ (toLowerL_ws t hws) (by decide)

/-- The Code rule is off on whitespace-only text. -/
theorem codeCond_false_of_ws (t : List Char)
    (hws : ∀ c ∈ t, isWsCh c = true) : codeCond t = false := by
  unfold codeCond
  rw [hasCodeKeywords_false_of_ws t hws]
  rfl

/-- The Design rule is off on whitespace-only text. -/
theorem designCond_false_of_ws (t : List Char)
    (hws : ∀ c ∈ t, isWsCh c = true) : designCond t = false := by
  unfold designCond hasColors hasDesignTools
  rw [countMatchesRe_zero_of_mustConsume nonWsCls hexRE mc_hex t
    (nonWs_false_of_ws t hws)]
  rw [needles_any_false_of_ws _ _ (toLowerL_ws t hws) (by decide)]
  rw [containsL_false_of_ws _ _ (toLowerL_ws t hws) (by decide)]
  simp

/-- The Receipts rule is off on whitespace-only text. -/
theorem receiptsCond_false_of_ws (t : List Char)
    (hws : ∀ c ∈ t, isWsCh c = true) : receiptsCond t = false := by
  unfold receiptsCond hasPrices
  rw [countMatchesRe_zero_of_mustConsume nonWsCls priceRE mc_price t
    (nonWs_false_of_ws t hws)]
  rfl

/-- There are no URLs in whitespace-only text. -/
theorem hasUrls_false_of_ws (t : List Char)
    (hws : ∀ c ∈ t, isWsCh c = true) : hasUrls t = false := by
  unfold hasUrls
  rw [countMatchesRe_zero_of_mustConsume nonWsCls urlRE mc_url t
    (nonWs_false_of_ws t hws)]
  rfl

/-- The Browser rule is off on whitespace-only text. -/
theorem browserCond_false_of_ws (t : List Char)
    (hws : ∀ c ∈ t, isWsCh c = true) : browserCond t = false := by
  have hlw := toLowerL_ws t hws
  unfold browserCond hasWww hasBrowserUi hasNavElements hasBrowserPatterns
  rw [hasUrls_false_of_ws t hws]
  rw [containsL_false_of_ws _ _ hws (by decide),
    containsL_false_of_ws _ _ hws (by decide)]
  rw [needles_any_false_of_ws _ _ hlw (by decide)]
  rw [containsL_false_of_ws _ _ hws (by decide),
    containsL_false_of_ws _ _ hws (by decide),
    containsL_false_of_ws _ _ hws (by decide),
    containsL_false_of_ws _ _ hws (by decide),
    containsL_false_of_ws _ _ hlw (by decide),
    containsL_false_of_ws _ _ hlw (by decide)]
  rw [containsL_false_of_ws _ _ hlw (by decide)]
  simp

/-- The Terminal rule is off on whitespace-only text. -/
theorem terminalCond_false_of_ws (t : List Char)
    (hws : ∀ c ∈ t, isWsCh c = true) : terminalCond t = false := by
  unfold terminalCond hasPrompts hasCommands
  rw [containsL_false_of_ws _ _ hws (by decide),
    containsL_false_of_ws _ _ hws (by decide),
    containsL_false_of_ws _ _ hws (by decide)]
  rw [needles_any_false_of_ws _ _ hws (by decide)]
  rfl

/-- The Errors rule is off on whitespace-only text. -/
theorem errorsCond_false_of_ws (t : List Char)
    (hws : ∀ c ∈ t, isWsCh c = true) : errorsCond t = false := by
  unfold errorsCond hasErrorWords hasStackTrace
  rw [needles_any_false_of_ws _ _ (toLowerL_ws t hws) (by decide)]
  rw [containsL_false_of_ws _ _ hws (by decide),
    containsL_false_of_ws _ _ hws (by decide),
    containsL_false_of_ws _ _ hws (by decide)]
  simp

/-- The Documents rule is off on whitespace-only text (no words). -/
theorem documentsCond_false_of_ws (t : List Char)
    (hws : ∀ c ∈ t, isWsCh c = true) : documentsCond t = false := by
  unfold documentsCond
  rw [splitWs_nil_of_ws t hws]
  simp

/-- The Images fallback is off on whitespace-only text: its trimmed
text is empty. -/
theorem imagesCond_false_of_ws (t : List Char)
    (hws : ∀ c ∈ t, isWsCh c = true) (te : Bool) : imagesCond t te = false := by
  unfold imagesCond isUiOverlay isOcrNoise
  rw [trimL_nil_of_ws t hws]
  rw [needles_any_false_of_ws _ _ (toLowerL_ws t hws) (by decide)]
  simp

/-- C8: `reprocess_all_tags` re-derives tags by calling the classifier
directly, so a row whose stored text is empty or whitespace-only gets
the empty tag list "[]" written, while the upsert path would force
`["Images"]`: the classifier's Images fallback needs a non-empty
trimmed text and the forced rule lives only in `save_entry_to_db`. -/
theorem c8_reprocess_whitespace_divergence (t : List Char)
    (hws : ∀ c ∈ t, isWsCh c = true) :
    detectCollections t = [] ∧
    reprocessRowTags t = ("[]".toList) ∧
    saveEntryTags t = ["Images"] := by
  have hdet : detectCollections t = [] := by
    unfold detectCollections
    rw [hasMessageBubbles_false_of_ws t hws, msgSecondary_false_of_ws t hws,
      codeCond_false_of_ws t hws, designCond_false_of_ws t hws,
      receiptsCond_false_of_ws t hws, browserCond_false_of_ws t hws,
      terminalCond_false_of_ws t hws, errorsCond_false_of_ws t hws,
      documentsCond_false_of_ws t hws]
    simp [imagesCond_false_of_ws t hws]
  refine ⟨hdet, ?_, ?_⟩
  · unfold reprocessRowTags
    rw [hdet]
    rfl
  · unfold saveEntryTags
    rw [trimL_nil_of_ws t hws]
    rfl

/-- C8 witness: the whitespace-only stored text `" \n\t "`. -/
theorem c8_reprocess_whitespace_divergence_witness :
    detectCollections (" \n\t ".toList) = [] ∧
    reprocessRowTags (" \n\t ".toList) = ("[]".toList) ∧
    saveEntryTags (" \n\t ".toList) = ["Images"] :=
  c8_reprocess_whitespace_divergence (" \n\t ".toList) (by decide)
